import Mathlib

/-!
Verification of the rainman2 cellular-network simulation engine.

This file gives a shallow embedding, in Lean 4, of the parts of the
repository relevant to the frozen claims:

* `rainman2/lib/environment/cellular/dev/utils.py` — the spatial and
  physical utility layer (grid intervals, neighbor search, distance,
  throughput, signal power, SLA);
* `rainman2/lib/environment/cellular/dev/network.py` — the `StaticNetwork`
  simulator (AP placement, UE creation, handoffs, reset);
* `rainman2/lib/environment/cellular/base.py` — the UE-based reward term.

Modelling conventions:

* Python floats are modelled as rationals (`ℚ`).  `np.around(x, 3)` and
  Python's `round` (both round-half-to-even) are modelled by `roundHE` /
  `round3` below.
* The transcendental float functions `math.exp`, `math.log10` and the
  square root inside `np.linalg.norm` are not algebraic operations on `ℚ`;
  they are taken as oracle parameters (`FloatOracle`).  Every theorem about
  the state machine is proved for an arbitrary oracle, so it holds in
  particular for the concrete float implementations.
* The `np.random` draws made during UE creation are abstracted by a
  `RandomDraws` oracle giving, for each `ue_id`, the application returned by
  `get_ue_app` and the location returned by `get_ue_location`.  The claims
  under study are independent of the random distributions.
* Python exceptions are modelled with `Except Err`; stateful methods return
  the (possibly mutated) state next to the `Except` result, mirroring the
  in-place mutations of the Python objects, which stay visible after an
  exception.
* Python `dict`s are modelled as association lists (`dlookup` / `dinsert`
  below) with first-match lookup and in-place replacement, matching the
  insertion-order semantics of `dict`.
-/

namespace Rainman2

/-- Exceptions thrown by the Python code: `KeyError` (missing dict key or
`set.remove` on a missing element), `TypeError` (e.g. subscripting `None`),
`IndexError` (list index out of range). -/
inductive Err where
  | keyError : Err
  | typeError : Err
  | indexError : Err
  deriving DecidableEq, Repr

/-- Round-half-to-even of a rational to an integer: the rounding mode of
Python's `round` and of `np.around` at 0 decimals.  Away from exact halves
this is `⌊q + 1/2⌋`, i.e. `round q`. -/
def roundHE (q : ℚ) : ℤ :=
  if q - ⌊q⌋ = 1 / 2 then (if ⌊q⌋ % 2 = 0 then ⌊q⌋ else ⌊q⌋ + 1) else ⌊q + 1 / 2⌋

/-- `np.around(q, decimals=3)`: round-half-to-even at 3 decimal places. -/
def round3 (q : ℚ) : ℚ := (roundHE (q * 1000) : ℚ) / 1000

/-- Python's built-in `round` to an integer (round-half-to-even). -/
def pyRound (q : ℚ) : ℤ := roundHE q

theorem roundHE_le (q : ℚ) : q - 1 / 2 ≤ (roundHE q : ℚ) := by
  unfold roundHE
  split
  · rename_i h
    have hfl : (⌊q⌋ : ℚ) = q - 1 / 2 := by linarith
    split
    · rw [hfl]
    · push_cast [hfl]; linarith
  · have h1 : q + 1 / 2 - 1 < (⌊q + 1 / 2⌋ : ℚ) := Int.sub_one_lt_floor _
    linarith

theorem le_roundHE (n : ℤ) (q : ℚ) (h : (n : ℚ) ≤ q) : n ≤ roundHE q := by
  have h1 : (n : ℚ) - 1 / 2 ≤ (roundHE q : ℚ) := le_trans (by linarith) (roundHE_le q)
  have h2 : (n : ℚ) < (roundHE q : ℚ) + 1 := by linarith
  exact_mod_cast Int.lt_add_one_iff.mp (by exact_mod_cast h2)

theorem le_round3 (a q : ℚ) (ha : a * 1000 = ((a * 1000 : ℚ).num : ℚ))
    (h : a ≤ q) : a ≤ round3 q := by
  unfold round3
  have hn : ((a * 1000 : ℚ).num : ℚ) ≤ q * 1000 := by
    rw [← ha]; nlinarith
  have := le_roundHE (a * 1000).num (q * 1000) hn
  have h3 : a * 1000 ≤ (roundHE (q * 1000) : ℚ) := by
    rw [ha]; exact_mod_cast this
  linarith

/-- First-match lookup in an association list (Python `d[k]`, reading). -/
def dlookup {κ α : Type} [DecidableEq κ] : List (κ × α) → κ → Option α
  | [], _ => none
  | (k', v) :: rest, k => if k = k' then some v else dlookup rest k

/-- Python `d[k] = v`: replace the binding in place if the key is present,
otherwise append it, preserving insertion order. -/
def dinsert {κ α : Type} [DecidableEq κ] : List (κ × α) → κ → α → List (κ × α)
  | [], k, v => [(k, v)]
  | (k', v') :: rest, k, v =>
    if k = k' then (k, v) :: rest else (k', v') :: dinsert rest k v

theorem dlookup_dinsert_self {κ α : Type} [DecidableEq κ]
    (d : List (κ × α)) (k : κ) (v : α) : dlookup (dinsert d k v) k = some v := by
  induction d with
  | nil => simp [dinsert, dlookup]
  | cons hd tl ih =>
    obtain ⟨k', v'⟩ := hd
    by_cases h : k = k' <;> simp [dinsert, dlookup, h, ih]

theorem dlookup_dinsert_ne {κ α : Type} [DecidableEq κ]
    (d : List (κ × α)) (k k' : κ) (v : α) (h : k' ≠ k) :
    dlookup (dinsert d k v) k' = dlookup d k' := by
  induction d with
  | nil => simp [dinsert, dlookup, h]
  | cons hd tl ih =>
    obtain ⟨k₀, v₀⟩ := hd
    by_cases hk : k = k₀
    · subst hk; simp [dinsert, dlookup, h]
    · by_cases hk' : k' = k₀ <;> simp [dinsert, dlookup, hk, hk', ih]

theorem dinsert_dinsert {κ α : Type} [DecidableEq κ]
    (d : List (κ × α)) (k : κ) (v v' : α) :
    dinsert (dinsert d k v) k v' = dinsert d k v' := by
  induction d with
  | nil => simp [dinsert]
  | cons hd tl ih =>
    obtain ⟨k₀, v₀⟩ := hd
    by_cases hk : k = k₀ <;> simp [dinsert, hk, ih]

theorem dlookup_append {κ α : Type} [DecidableEq κ]
    (l₁ l₂ : List (κ × α)) (k : κ) :
    dlookup (l₁ ++ l₂) k =
      (match dlookup l₁ k with
       | some v => some v
       | none => dlookup l₂ k) := by
  induction l₁ with
  | nil => simp [dlookup]
  | cons hd tl ih =>
    obtain ⟨k₀, v₀⟩ := hd
    by_cases hk : k = k₀ <;> simp [dlookup, hk, ih]

theorem dinsert_eq_append {κ α : Type} [DecidableEq κ]
    (d : List (κ × α)) (k : κ) (v : α) (h : dlookup d k = none) :
    dinsert d k v = d ++ [(k, v)] := by
  induction d with
  | nil => simp [dinsert]
  | cons hd tl ih =>
    obtain ⟨k₀, v₀⟩ := hd
    by_cases hk : k = k₀
    · simp [dlookup, hk] at h
    · simp [dlookup, hk] at h
      simp [dinsert, hk, ih h]

/-! ### utils.py: application classes and entity records -/

/-- The application classes, the keys of `APPS_DICT` in `utils.py`
(`"web"`, `"video"`, `"voice"`, `"others"`). -/
inductive App where
  | web : App
  | video : App
  | voice : App
  | others : App
  deriving DecidableEq, Repr

instance : Fintype App :=
  ⟨⟨{App.web, App.video, App.voice, App.others}, by decide⟩, fun x => by cases x <;> decide⟩

/-- `APPS_DICT`: required bandwidth per application class. -/
def APPS_DICT : App → ℚ
  | .web => 1 / 4
  | .video => 2
  | .voice => 1 / 10
  | .others => 1 / 20

/-- A 2D coordinate (Python tuple `(x, y)`). -/
abbrev Loc := ℚ × ℚ

/-- The `utils.AP` record.  `n_ues` maps each application class to the set of
attached UE ids; `ues_meeting_sla` is the per-class counter (an `int` that
the code increments and decrements). -/
structure AP where
  ap_id : ℕ
  location : Loc
  n_ues : App → Finset ℕ
  ues_meeting_sla : App → ℤ
  max_connections : ℕ
  uplink_bandwidth : ℚ
  channel_bandwidth : ℚ
  deriving DecidableEq

/-- `utils.AP(ap_id=ap_id, location=location)` with the remaining fields at
their defaults (`n_ues` and `ues_meeting_sla` initialised empty / zero per
class, `max_connections=50`, `uplink_bandwidth=25.0`,
`channel_bandwidth=10.0`). -/
def mkAP (ap_id : ℕ) (location : Loc) : AP :=
  ⟨ap_id, location, fun _ => ∅, fun _ => 0, 50, 25, 10⟩

/-- The `utils.UE` record.  `signal_power` is an `Option` because
`get_ue_sig_power` returns `None` at distance zero and the result is stored
in the field. -/
structure UE where
  ue_id : ℕ
  ap : ℕ
  location : Loc
  app : App
  required_bandwidth : ℚ
  neighboring_aps : List ℕ
  distance : ℚ
  throughput : ℚ
  sla : ℤ
  signal_power : Option ℤ
  deriving DecidableEq

/-! ### utils.py: grid interval and neighbor search -/

/-- The `for index, num in enumerate(num_list): if value <= num: return
(num_list[index - 1], num_list[index])` loop of `get_interval`.  `prev` is
the element at `index - 1` (for `index = 0`, Python's `num_list[-1]`, the
last element). -/
def bracket_loop (v : ℚ) (prev : ℚ) : List ℚ → Option (ℚ × ℚ)
  | [] => none
  | x :: xs => if v ≤ x then some (prev, x) else bracket_loop v x xs

/-- `utils.get_interval`.  `none` models the Python exceptions: indexing an
empty list, `num_list[1]` on a singleton, and the implicit `None` when the
loop finds nothing. -/
def get_interval (v : ℚ) (l : List ℚ) : Option (ℚ × ℚ) :=
  match l with
  | [] => none
  | x :: xs =>
    let lst := (x :: xs).getLastD 0
    if v < x then some (x, x)
    else if lst < v then some (lst, lst)
    else if v = x then
      match xs with
      | [] => none
      | y :: _ => some (x, y)
    else if v = lst then
      match (x :: xs).dropLast.getLast? with
      | none => none
      | some sl => some (sl, lst)
    else bracket_loop v lst (x :: xs)

/-- `utils.get_aps_in_grid`: the bracketing intervals on both axes and the
Cartesian product of their endpoints (`list(set(product(...)))`, modelled
with first-occurrence deduplication). -/
def get_aps_in_grid (ue_location : Loc) (aps_per_axis : List ℚ) : Option (List Loc) := do
  let mi ← get_interval ue_location.1 aps_per_axis
  let ma ← get_interval ue_location.2 aps_per_axis
  pure ([(mi.1, ma.1), (mi.1, ma.2), (mi.2, ma.1), (mi.2, ma.2)].dedup)

/-- `utils.valid_ap`: both coordinates are AP axis coordinates. -/
def valid_ap (ap : Loc) (aps_per_axis : List ℚ) : Bool :=
  ap.1 ∈ aps_per_axis ∧ ap.2 ∈ aps_per_axis

/-- `utils.get_valid_neighbors`.  The Python code reads
`aps_per_axis[1] - aps_per_axis[0]`, an `IndexError` (`none`) when the axis
has fewer than two points. -/
def get_valid_neighbors (ap : Loc) (aps_per_axis : List ℚ) : Option (List Loc) :=
  match aps_per_axis with
  | a :: b :: _ =>
    let s := b - a
    some ([(ap.1 - s, ap.2), (ap.1 + s, ap.2), (ap.1, ap.2 - s), (ap.1, ap.2 + s)].filter
      (fun p => valid_ap p aps_per_axis))
  | _ => none

/-- `utils.get_extended_neighboring_aps`: repeatedly add the axis-aligned
neighbors, `radius` times.  The working collection is a Python `set`,
modelled as a deduplicated list (the iteration order of a Python set is
implementation-defined; the claims only use set-level facts).  When the
collection is empty the loop body makes no `get_valid_neighbors` call, so no
`IndexError` can be raised. -/
def get_extended_neighboring_aps (aps_per_axis : List ℚ) :
    List Loc → ℕ → Option (List Loc)
  | closest, 0 => some closest
  | closest, radius + 1 =>
    match closest with
    | [] => get_extended_neighboring_aps aps_per_axis [] radius
    | c :: cs =>
      match aps_per_axis with
      | a :: b :: rest =>
        let axis := a :: b :: rest
        let s := b - a
        let step := ((c :: cs) ++ (c :: cs).flatMap (fun ap =>
          ([(ap.1 - s, ap.2), (ap.1 + s, ap.2), (ap.1, ap.2 - s), (ap.1, ap.2 + s)].filter
            (fun p => valid_ap p axis)))).dedup
        get_extended_neighboring_aps axis step radius
      | _ => none

/-- `utils.get_neighboring_aps`: the enclosing grid corners (`within_grid`)
plus, for `radius > 1`, the extended ring (`rest`, a set minus the grid
corners). -/
def get_neighboring_aps (ue_location : Loc) (aps_per_axis : List ℚ)
    (radius : ℕ) : Option (List Loc × List Loc) := do
  let wg ← get_aps_in_grid ue_location aps_per_axis
  if 1 < radius then
    let ext ← get_extended_neighboring_aps aps_per_axis wg (radius - 1)
    pure (wg, ext.filter (fun p => p ∉ wg))
  else
    pure (wg, ([] : List Loc))

/-! ### utils.py: distance and physical model

The float square root inside `np.linalg.norm`, `math.exp` and `math.log10`
are oracle parameters: `fsqrt` receives the exact squared norm, `fexp` and
`flog10` their exact rational arguments. -/

/-- `utils.get_ue_ap_distance`: `np.around(np.linalg.norm(ap - ue), 3)`. -/
def get_ue_ap_distance (fsqrt : ℚ → ℚ) (a b : Loc) : ℚ :=
  round3 (fsqrt ((a.1 - b.1) ^ 2 + (a.2 - b.2) ^ 2))

/-- `utils.get_closest_ap_location`: first strict minimiser of
`get_ue_ap_distance` over the list (`none` on the empty list, where the
Python code would raise an `IndexError`). -/
def get_closest_ap_location (fsqrt : ℚ → ℚ) (neighboring_aps : List Loc)
    (ue_location : Loc) : Option Loc :=
  match neighboring_aps with
  | [] => none
  | c :: rest =>
    some (rest.foldl
      (fun acc ap =>
        let d := get_ue_ap_distance fsqrt ap ue_location
        if d < acc.2 then (ap, d) else acc)
      (c, get_ue_ap_distance fsqrt c ue_location)).1

/-- `utils.get_ue_ap`: the closest `within_grid` AP location plus the whole
neighbor list `within_grid + rest`. -/
def get_ue_ap (fsqrt : ℚ → ℚ) (ue_location : Loc) (aps_per_axis : List ℚ)
    (radius : ℕ) : Option (Loc × List Loc) := do
  let nb ← get_neighboring_aps ue_location aps_per_axis radius
  let c ← get_closest_ap_location fsqrt nb.1 ue_location
  pure (c, nb.1 ++ nb.2)

/-- `utils.calculate_distance_factor`:
`np.around(exp(-distance / (2 * scale)), 3)`. -/
def calculate_distance_factor (fexp : ℚ → ℚ) (ue_ap_distance scale : ℚ) : ℚ :=
  round3 (fexp (-ue_ap_distance / (2 * scale)))

/-- `utils.calculate_radio_bandwidth`:
`np.around(distance_factor * channel_bandwidth, 3)`. -/
def calculate_radio_bandwidth (distance_factor ap_channel_bandwidth : ℚ) : ℚ :=
  round3 (distance_factor * ap_channel_bandwidth)

/-- `utils.calculate_network_bandwidth`: `ap_factor = 1`, divided by
`n_ues_on_ap` only when that is non-zero (the Python guard against
`ZeroDivisionError`), then `np.around(ap_factor * uplink, 3)`. -/
def calculate_network_bandwidth (n_ues_on_ap : ℕ) (ap_uplink_bandwidth : ℚ) : ℚ :=
  let ap_factor : ℚ := if n_ues_on_ap ≠ 0 then 1 / (n_ues_on_ap : ℚ) else 1
  round3 (ap_factor * ap_uplink_bandwidth)

/-- `utils.get_ue_throughput`:
`min(radio_bandwidth, network_bandwidth, app_required_bandwidth)`. -/
def get_ue_throughput (fexp : ℚ → ℚ) (scale ue_ap_distance : ℚ) (n_ues_on_ap : ℕ)
    (ap_uplink_bandwidth ap_channel_bandwidth app_required_bandwidth : ℚ) : ℚ :=
  let distance_factor := calculate_distance_factor fexp ue_ap_distance scale
  let radio_bandwidth := calculate_radio_bandwidth distance_factor ap_channel_bandwidth
  let network_bandwidth := calculate_network_bandwidth n_ues_on_ap ap_uplink_bandwidth
  min radio_bandwidth (min network_bandwidth app_required_bandwidth)

/-- `utils.get_ue_sig_power`: computed only for truthy (non-zero) distance
(`round(10 * log10(1 / distance**2) / 10)`), `None` at zero. -/
def get_ue_sig_power (flog10 : ℚ → ℚ) (ue_ap_distance : ℚ) : Option ℤ :=
  if ue_ap_distance ≠ 0 then
    some (pyRound ((10 * flog10 (1 / ue_ap_distance ^ 2)) / 10))
  else none

/-- `utils.get_ue_sla`: `int(ue_throughput >= ue_required_bandwidth)`. -/
def get_ue_sla (ue_throughput ue_required_bandwidth : ℚ) : ℤ :=
  if ue_required_bandwidth ≤ ue_throughput then 1 else 0

/-! ### base.py: the UE-based reward term -/

/-- `CellularNetworkEnv.reward_based_on_ue_state` in `base.py`.  The Python
function assigns a local `reward` only in some branches; in the remaining
branches (`action != 1` with exactly one truthy SLA) the trailing
`logger.debug(...format(reward))` raises `UnboundLocalError`, modelled as
`none`.  Python truthiness of an `int` is `≠ 0`. -/
def reward_based_on_ue_state (action old_sla new_sla : ℤ) : Option ℤ :=
  if action = 1 then
    if old_sla = 0 then
      (if new_sla = 0 then some (-2) else some 3)
    else
      (if new_sla = 0 then some (-4) else some (-1))
  else
    if old_sla = 0 then
      (if new_sla = 0 then some (-1) else none)
    else
      (if new_sla = 0 then none else some 1)

/-! ### network.py: the StaticNetwork simulator -/

/-- The float math the Python code performs through `numpy`/`math`:
`fsqrt` is the square root inside `np.linalg.norm` (applied to the exact
squared norm), `fexp` is `math.exp`, `flog10` is `math.log10`.  All state
machine theorems are proved for an arbitrary oracle. -/
structure FloatOracle where
  fsqrt : ℚ → ℚ
  fexp : ℚ → ℚ
  flog10 : ℚ → ℚ

/-- The `np.random` draws made while instantiating UEs: for UE `i`,
`appOf i` is the class `get_ue_app()` returned (always `web` or `video` in
the source) and `locOf i` the location `get_ue_location(...)` returned.
The distributions themselves are not modelled; every theorem below holds
for all draws. -/
structure RandomDraws where
  appOf : ℕ → App
  locOf : ℕ → Loc

/-- The mutable state of a `StaticNetwork` object.  `ap_dict` and `ue_dict`
are `Option`s because `reset_network` assigns `None` to both attributes.
`ue_sla_stats` is the pair of the `"Meets"` and `"Doesnot"` counters. -/
structure NetState where
  num_ues : ℕ
  num_aps : ℕ
  scale : ℚ
  explore_radius : ℕ
  x_units : ℕ
  aps_per_axis : List ℚ
  location_to_ap_lookup : List (Loc × ℕ)
  ap_dict : Option (List (ℕ × AP))
  ue_dict : Option (List (ℕ × UE))
  ue_app_stats : App → ℕ
  ue_sla_stats : ℤ × ℤ
  deriving DecidableEq

/-- `StaticNetwork.total_ues`: sum of the per-class attachment set sizes. -/
def total_ues (n_ues : App → Finset ℕ) : ℕ :=
  (n_ues .web).card + (n_ues .video).card + (n_ues .voice).card + (n_ues .others).card

/-- `StaticNetwork.update_ue_stats` (with the `ue_sla_stats` bookkeeping of
`calculate_ue_sla` inlined): recompute the UE's distance, throughput, SLA
and signal power against `ap`, and add the fresh SLA to the AP's
`ues_meeting_sla` counter for the UE's class.  Returns the updated UE and AP
records and SLA stats. -/
def update_ue_stats (O : FloatOracle) (scale : ℚ) (stats : ℤ × ℤ)
    (ue : UE) (ap : AP) : UE × AP × (ℤ × ℤ) :=
  let d := get_ue_ap_distance O.fsqrt ue.location ap.location
  let tp := get_ue_throughput O.fexp scale d (total_ues ap.n_ues)
    ap.uplink_bandwidth ap.channel_bandwidth ue.required_bandwidth
  let sla := get_ue_sla tp ue.required_bandwidth
  let stats' := if sla = 0 then (stats.1, stats.2 + 1) else (stats.1 + 1, stats.2)
  let ue' := { ue with
    distance := d, throughput := tp, sla := sla,
    signal_power := get_ue_sig_power O.flog10 d }
  let ap' := { ap with ues_meeting_sla := fun c =>
                 if c = ue.app then ap.ues_meeting_sla c + sla
                 else ap.ues_meeting_sla c }
  (ue', ap', stats')

/-- `StaticNetwork.neighboring_ap_ids`: drop the current AP location from
the list, then translate each location to its AP id through
`location_to_ap_lookup` (`KeyError` on a missing location). -/
def neighboring_ap_ids (lk : List (Loc × ℕ)) (current_ap_location : Loc) :
    List Loc → Except Err (List ℕ)
  | [] => .ok []
  | l :: rest =>
    if current_ap_location = l then neighboring_ap_ids lk current_ap_location rest
    else
      match dlookup lk l with
      | none => .error .keyError
      | some i =>
        match neighboring_ap_ids lk current_ap_location rest with
        | .error e => .error e
        | .ok ids => .ok (i :: ids)

/-- `StaticNetwork.fetch_neighboring_aps`: neighbor search around the UE's
location, then id translation relative to `ap`'s location. -/
def fetch_neighboring_aps (lk : List (Loc × ℕ)) (aps_per_axis : List ℚ)
    (radius : ℕ) (ue : UE) (ap : AP) : Except Err (List ℕ) :=
  match get_neighboring_aps ue.location aps_per_axis radius with
  | none => .error .typeError
  | some (wg, rest) => neighboring_ap_ids lk ap.location (wg ++ rest)

/-- The body of `_place_aps`' nested `for xloc / for yloc` loops: `lk` is
`self._location_to_ap_lookup`, `apd` the local `ap_dict`, `ap_id` the
running counter. -/
def place_aps_loop (lk : List (Loc × ℕ)) (apd : List (ℕ × AP)) (ap_id : ℕ) :
    List Loc → List (Loc × ℕ) × List (ℕ × AP)
  | [] => (lk, apd)
  | loc :: rest =>
    place_aps_loop (dinsert lk loc ap_id) (dinsert apd ap_id (mkAP ap_id loc))
      (ap_id + 1) rest

/-- `StaticNetwork._place_aps`: one AP per point of
`aps_per_axis × aps_per_axis`, ids `1, 2, ...` in row-major generation
order; the location-to-id lookup is updated (`dict` assignment, so existing
keys are overwritten) and the fresh `ap_dict` is returned. -/
def place_aps (aps_per_axis : List ℚ) (lk : List (Loc × ℕ)) :
    List (Loc × ℕ) × List (ℕ × AP) :=
  place_aps_loop lk [] 1
    (aps_per_axis.flatMap (fun x => aps_per_axis.map (fun y => (x, y))))

/-- One iteration of the `for ue_id in range(1, num_ues + 1)` loop of
`StaticNetwork._instantiate_ues`, followed by the rest of the loop.  `acc`
is the local `ue_dict` built so far.  Mutations of `self` (AP stats, app
stats, SLA stats) are threaded through the state; the built `ue_dict` is
returned separately because the caller decides what to do with it. -/
def instantiate_loop (O : FloatOracle) (D : RandomDraws) :
    List ℕ → NetState → List (ℕ × UE) → Except Err (List (ℕ × UE)) × NetState
  | [], st, acc => (.ok acc, st)
  | i :: rest, st, acc =>
    let app := D.appOf i
    let st₁ := { st with ue_app_stats := fun c =>
                   if c = app then st.ue_app_stats c + 1 else st.ue_app_stats c }
    let required_bandwidth := APPS_DICT app
    let loc := D.locOf i
    match get_ue_ap O.fsqrt loc st₁.aps_per_axis st₁.explore_radius with
    | none => (.error .typeError, st₁)
    | some (cap_loc, nbrs) =>
      match dlookup st₁.location_to_ap_lookup cap_loc with
      | none => (.error .keyError, st₁)
      | some cap_id =>
        match st₁.ap_dict with
        | none => (.error .typeError, st₁)
        | some apd =>
          match dlookup apd cap_id with
          | none => (.error .keyError, st₁)
          | some cap =>
            let cap₁ := { cap with n_ues := fun c =>
                            if c = app then insert i (cap.n_ues c) else cap.n_ues c }
            let st₂ := { st₁ with ap_dict := some (dinsert apd cap_id cap₁) }
            match neighboring_ap_ids st₂.location_to_ap_lookup cap_loc nbrs with
            | .error e => (.error e, st₂)
            | .ok nbr_ids =>
              let ue₀ : UE := ⟨i, cap_id, loc, app, required_bandwidth, nbr_ids,
                               0, 0, 1, some (-100)⟩
              let r := update_ue_stats O st₂.scale st₂.ue_sla_stats ue₀ cap₁
              let st₃ := { st₂ with
                ap_dict := some (dinsert (dinsert apd cap_id cap₁) cap_id r.2.1),
                ue_sla_stats := r.2.2 }
              instantiate_loop O D rest st₃ (acc ++ [(i, r.1)])

/-- `StaticNetwork._instantiate_ues`. -/
def instantiate_ues (O : FloatOracle) (D : RandomDraws) (st : NetState) :
    Except Err (List (ℕ × UE)) × NetState :=
  instantiate_loop O D (List.range' 1 st.num_ues) st []

/-- `StaticNetwork.__init__`: compute `x_units` and `aps_per_axis`, place
the APs, then instantiate the UEs and store the result in `_ue_dict`.  An
exception during `_instantiate_ues` propagates out of the constructor. -/
def initNetwork (O : FloatOracle) (D : RandomDraws) (num_ues num_aps : ℕ)
    (scale : ℚ) (explore_radius : ℕ) : Except Err NetState :=
  let x_units := Nat.sqrt num_aps
  let axis := (List.range x_units).map (fun i => (1 + 2 * (i : ℚ)) * scale)
  let placed := place_aps axis []
  let st₀ : NetState :=
    ⟨num_ues, num_aps, scale, explore_radius, x_units, axis,
     placed.1, some placed.2, none, fun _ => 0, (0, 0)⟩
  match instantiate_ues O D st₀ with
  | (.error e, _) => .error e
  | (.ok ued, st₁) => .ok { st₁ with ue_dict := some ued }

/-- The `OrderedDict` returned by `perform_handoff` / `handoff_to_ap`, with
keys `DONE`, `UE`, `OLD_AP`, `NEW_AP`. -/
structure HandoffResult where
  done : Bool
  ue : Option UE
  old_ap : Option AP
  new_ap : Option AP
  deriving DecidableEq

/-- `StaticNetwork.handoff_to_ap`.  Mirrors the statement order of the
Python method, writing each in-place mutation back into the state before the
next possible exception point: remove the UE from its current AP
(`set.remove` raises `KeyError` on a missing element) and decrement that
AP's SLA counter; only then `validate_ap(new_ap_id)` — a failure here leaves
the state already mutated; set `ue.ap`, add the UE to the new AP, recompute
the neighbor list (its lookups may raise), and finally `update_ue_stats`. -/
def handoff_to_ap (O : FloatOracle) (st : NetState) (apd : List (ℕ × AP))
    (ued : List (ℕ × UE)) (ue_id : ℕ) (ue : UE) (cur : AP) (new_ap_id : ℕ) :
    Except Err HandoffResult × NetState :=
  if ue.ue_id ∈ cur.n_ues ue.app then
    let cur₁ := { cur with
      n_ues := fun c => if c = ue.app then (cur.n_ues c).erase ue.ue_id else cur.n_ues c,
      ues_meeting_sla := fun c =>
        if c = ue.app then cur.ues_meeting_sla c - ue.sla else cur.ues_meeting_sla c }
    let apd₁ := dinsert apd ue.ap cur₁
    let st₁ := { st with ap_dict := some apd₁ }
    match dlookup apd₁ new_ap_id with
    | none => (.error .keyError, st₁)
    | some nap =>
      let ue₁ := { ue with ap := new_ap_id }
      let nap₁ := { nap with n_ues := fun c =>
                      if c = ue.app then insert ue.ue_id (nap.n_ues c) else nap.n_ues c }
      let apd₂ := dinsert apd₁ new_ap_id nap₁
      let ued₁ := dinsert ued ue_id ue₁
      let st₂ := { st₁ with ap_dict := some apd₂, ue_dict := some ued₁ }
      match fetch_neighboring_aps st₂.location_to_ap_lookup st₂.aps_per_axis
          st₂.explore_radius ue₁ nap₁ with
      | .error e => (.error e, st₂)
      | .ok nbrs =>
        let ue₂ := { ue₁ with neighboring_aps := nbrs }
        let r := update_ue_stats O st₂.scale st₂.ue_sla_stats ue₂ nap₁
        let st₃ := { st₂ with
          ap_dict := some (dinsert apd₂ new_ap_id r.2.1),
          ue_dict := some (dinsert ued₁ ue_id r.1),
          ue_sla_stats := r.2.2 }
        (.ok ⟨true, some r.1, some cur₁, some r.2.1⟩, st₃)
  else (.error .keyError, st)

/-- `StaticNetwork.perform_handoff`: validate the UE, fetch its current AP
(`self._ap_dict[ue.ap]`), no-op with `DONE=False` when the requested AP is
the current one, otherwise run `handoff_to_ap`. -/
def perform_handoff (O : FloatOracle) (st : NetState) (ue_id ap_id : ℕ) :
    Except Err HandoffResult × NetState :=
  match st.ue_dict with
  | none => (.error .typeError, st)
  | some ued =>
    match dlookup ued ue_id with
    | none => (.error .keyError, st)
    | some ue =>
      match st.ap_dict with
      | none => (.error .typeError, st)
      | some apd =>
        match dlookup apd ue.ap with
        | none => (.error .keyError, st)
        | some cur =>
          if ue.ap = ap_id then (.ok ⟨false, none, none, none⟩, st)
          else handoff_to_ap O st apd ued ue_id ue cur ap_id

/-- `StaticNetwork.reset_network`: set `_ap_dict` and `_ue_dict` to `None`,
call `_place_aps()` (whose return value is discarded — only its side effect
on `location_to_ap_lookup` persists) and `_instantiate_ues()` (return value
also discarded).  Neither attribute is reassigned. -/
def reset_network (O : FloatOracle) (D : RandomDraws) (st : NetState) :
    Except Err Unit × NetState :=
  let st₁ := { st with ap_dict := none, ue_dict := none }
  let placed := place_aps st₁.aps_per_axis st₁.location_to_ap_lookup
  let st₂ := { st₁ with location_to_ap_lookup := placed.1 }
  match instantiate_ues O D st₂ with
  | (.error e, st₃) => (.error e, st₃)
  | (.ok _, st₃) => (.ok (), st₃)

/-! ### A concrete scenario used by several theorems

`oracle0` is a stand-in float oracle: `fsqrt` is the identity (strictly
monotone in the squared distance, hence order-equivalent to the true square
root in every distance comparison), `fexp` is constantly `1` (the exact
value of `math.exp(0.0)`), `flog10` constantly `0`.  `draws0` creates every
UE as a `web` UE at `(120, 140)`.  The concrete network has `num_ues = 1`,
`num_aps = 1` (a 1×1 grid with the single AP at `(100, 100)`),
`scale = 100` and `explore_radius = 1`; `stA` is the state `__init__`
produces for it: the UE attaches to AP 1 at (rounded) distance 2000 (the
identity oracle returns the squared distance), throughput `0.25`
(`min(10, 25, 0.25)`), SLA met, and an empty neighbor list (the current AP
is filtered out by `neighboring_ap_ids`). -/

def oracle0 : FloatOracle := ⟨fun q => q, fun _ => 1, fun _ => 0⟩

def draws0 : RandomDraws := ⟨fun _ => App.web, fun _ => (120, 140)⟩

def apA : AP :=
  ⟨1, (100, 100), fun c => if c = App.web then {1} else ∅,
   fun c => if c = App.web then 1 else 0, 50, 25, 10⟩

def ueA : UE := ⟨1, 1, (120, 140), App.web, 1 / 4, [], 2000, 1 / 4, 1, some 0⟩

def stA : NetState :=
  ⟨1, 1, 100, 1, 1, [100], [((100, 100), 1)], some [(1, apA)], some [(1, ueA)],
   fun c => if c = App.web then 1 else 0, (1, 0)⟩

/-! ### C1: the UE-based reward table -/

/-- C1 counterexample: the claim says `reward_based_on_ue_state` returns a
value for every action and SLA pair in `{0, 1}` (0 for STAY with differing
SLAs); at `action = 0 (STAY)`, `ue_old_sla = 0`, `ue_new_sla = 1` the Python
function assigns no `reward` and fails with `UnboundLocalError` instead of
returning 0. -/
theorem c1_counterexample :
    reward_based_on_ue_state 0 0 1 = none ∧ reward_based_on_ue_state 0 1 0 = none := by
  decide

/-- C1 (amended): for every action and SLA values in `{0, 1}`,
`reward_based_on_ue_state` follows the spec's table — HANDOFF (action 1):
−2, +3, −4, −1; STAY (any other action): −1 when both SLAs are 0, +1 when
both are 1 — except that in the remaining two STAY cases it does not return
a value (the Python local `reward` is never assigned, so the function
fails). -/
theorem c1_reward_table (action : ℤ) :
    reward_based_on_ue_state action 0 0 = some (if action = 1 then -2 else -1) ∧
    reward_based_on_ue_state action 0 1 = (if action = 1 then some 3 else none) ∧
    reward_based_on_ue_state action 1 0 = (if action = 1 then some (-4) else none) ∧
    reward_based_on_ue_state action 1 1 = some (if action = 1 then -1 else 1) := by
  by_cases h : action = 1 <;> simp [reward_based_on_ue_state, h]

/-! ### Evaluation of the concrete scenario -/

theorem eval_interval_120 : get_interval (120 : ℚ) [100] = some (100, 100) := by
  norm_num [get_interval]

theorem eval_interval_140 : get_interval (140 : ℚ) [100] = some (100, 100) := by
  norm_num [get_interval]

theorem eval_grid_A : get_aps_in_grid (120, 140) [100] = some [(100, 100)] := by
  norm_num [get_aps_in_grid, eval_interval_120, eval_interval_140]

theorem eval_neighbors_A :
    get_neighboring_aps (120, 140) [100] 1 = some ([(100, 100)], []) := by
  norm_num [get_neighboring_aps, eval_grid_A]

theorem eval_ue_ap_A :
    get_ue_ap (fun q : ℚ => q) (120, 140) [100] 1 =
      some ((100, 100), [(100, 100)]) := by
  norm_num [get_ue_ap, eval_neighbors_A, get_closest_ap_location]

theorem eval_distance_A :
    get_ue_ap_distance (fun q : ℚ => q) (120, 140) (100, 100) = 2000 := by
  norm_num [get_ue_ap_distance, round3, roundHE]

def stA0 : NetState :=
  ⟨1, 1, 100, 1, 1, [100], [((100, 100), 1)], some [(1, mkAP 1 (100, 100))],
   none, fun _ => 0, (0, 0)⟩

def stA1 : NetState :=
  ⟨1, 1, 100, 1, 1, [100], [((100, 100), 1)], some [(1, apA)], none,
   fun c => if c = App.web then 1 else 0, (1, 0)⟩

theorem eval_update :
    update_ue_stats oracle0 100 (0, 0)
      ⟨1, 1, (120, 140), App.web, APPS_DICT App.web, [], 0, 0, 1, some (-100)⟩
      ⟨1, (100, 100), fun c => if c = App.web then insert 1 ∅ else ∅,
       fun _ => 0, 50, 25, 10⟩ = (ueA, apA, (1, 0)) := by
  have hv : (App.video = App.web) = False := by simp
  have hvo : (App.voice = App.web) = False := by simp
  have ho : (App.others = App.web) = False := by simp
  simp only [update_ue_stats, oracle0, eval_distance_A]
  norm_num [get_ue_throughput, calculate_distance_factor,
    calculate_radio_bandwidth, calculate_network_bandwidth, total_ues,
    hv, hvo, ho, round3, roundHE, min_def, get_ue_sla, get_ue_sig_power,
    pyRound, APPS_DICT, ueA, apA]

theorem eval_loop :
    instantiate_loop oracle0 draws0 [1] stA0 [] = (Except.ok [(1, ueA)], stA1) := by
  have h1 : get_ue_ap oracle0.fsqrt (120, 140) [100] 1 =
      some ((100, 100), [(100, 100)]) := eval_ue_ap_A
  simp only [instantiate_loop, stA0, draws0, h1]
  simp only [dlookup, neighboring_ap_ids, mkAP, if_pos]
  rw [eval_update]
  norm_num [dinsert, stA1, apA, ueA, NetState.mk.injEq, Prod.mk.injEq]
theorem eval_place : place_aps [100] [] = ([((100, 100), 1)], [(1, mkAP 1 (100, 100))]) := by
  simp [place_aps, place_aps_loop, dinsert]

theorem eval_stA : initNetwork oracle0 draws0 1 1 100 1 = Except.ok stA := by
  have h : Nat.sqrt 1 = 1 := by norm_num
  have h2 : List.range 1 = [0] := by decide
  have hr : List.range' 1 1 = [1] := by decide
  have hloop := eval_loop
  simp only [stA0] at hloop
  norm_num at hloop
  simp only [initNetwork, instantiate_ues, h, h2, hr, List.map_cons,
    List.map_nil]
  norm_num [eval_place, hloop, stA, stA1, NetState.mk.injEq]

/-! ### C2: reset_network -/

/-- C2 (code bug): `reset_network` sets `_ap_dict` and `_ue_dict` to `None`
and then discards the return values of `_place_aps()` and
`_instantiate_ues()`, so instead of re-establishing a valid starting state
it raises a `TypeError` (subscripting `None` inside `_instantiate_ues`) and
leaves both maps as `None` — no AP and no UE can be queried afterwards.
Evaluated on the concrete network state `stA` built by `initNetwork`. -/
theorem c2_reset_leaves_network_unusable :
    initNetwork oracle0 draws0 1 1 100 1 = Except.ok stA ∧
    (reset_network oracle0 draws0 stA).1 = Except.error Err.typeError ∧
    (reset_network oracle0 draws0 stA).2.ap_dict = none ∧
    (reset_network oracle0 draws0 stA).2.ue_dict = none := by
  have hr : List.range' 1 1 = [1] := by decide
  refine ⟨eval_stA, ?_, ?_, ?_⟩ <;>
    norm_num [reset_network, place_aps, place_aps_loop, instantiate_ues,
      instantiate_loop, hr, draws0, oracle0, eval_ue_ap_A, dlookup, dinsert,
      stA, mkAP]

/-! ### C3: handoff to an unknown AP id -/

/-- C3 (code bug): `perform_handoff` with an existing `ue_id` and an unknown
`ap_id` does raise the not-found condition (`KeyError`), but only after
`handoff_to_ap` has already removed the UE from its current AP's `n_ues`
set and decremented that AP's `ues_meeting_sla` counter, so the state is
mutated and the UE→AP / AP→{UEs} relation is broken: UE 1 still records
`ap = 1` while AP 1's `web` set no longer contains it. -/
theorem c3_handoff_unknown_ap_mutates_state :
    initNetwork oracle0 draws0 1 1 100 1 = Except.ok stA ∧
    dlookup (stA.ap_dict.getD []) 99 = none ∧
    (dlookup (stA.ap_dict.getD []) 1).map
      (fun ap => (ap.n_ues App.web, ap.ues_meeting_sla App.web)) = some ({1}, 1) ∧
    (perform_handoff oracle0 stA 1 99).1 = Except.error Err.keyError ∧
    (dlookup ((perform_handoff oracle0 stA 1 99).2.ap_dict.getD []) 1).map
      (fun ap => (ap.n_ues App.web, ap.ues_meeting_sla App.web)) = some (∅, 0) ∧
    (dlookup ((perform_handoff oracle0 stA 1 99).2.ue_dict.getD []) 1).map
      (fun ue => ue.ap) = some 1 ∧
    (perform_handoff oracle0 stA 1 99).2 ≠ stA := by
  refine ⟨eval_stA, ?_, ?_, ?_, ?_, ?_, ?_⟩
  · simp [stA, dlookup, apA]
  · simp [stA, dlookup, apA]
  · simp [perform_handoff, handoff_to_ap, stA, dlookup, dinsert, apA, ueA]
  · simp [perform_handoff, handoff_to_ap, stA, dlookup, dinsert, apA, ueA]
  · simp [perform_handoff, handoff_to_ap, stA, dlookup, dinsert, apA, ueA]
  · intro h
    have h2 : (perform_handoff oracle0 stA 1 99).2.ap_dict = stA.ap_dict := by rw [h]
    simp [perform_handoff, handoff_to_ap, stA, dlookup, dinsert, apA, ueA] at h2
    have h3 := congrArg (fun f => f App.web) h2.right
    norm_num at h3

/-! ### C7: handoff to the current AP is a pure no-op -/

/-- C7: for every simulator state in which `ue_id` resolves to a UE and the
UE's current AP id resolves to an AP record (as in every state the simulator
produces), `perform_handoff(ue_id, ap_id)` with `ap_id` equal to the UE's
current AP returns `DONE=False` with `UE`, `OLD_AP`, `NEW_AP` all absent and
returns the state itself — every AP and UE record is exactly unchanged. -/
theorem c7_handoff_to_current_ap_is_noop (O : FloatOracle) (st : NetState)
    (ued : List (ℕ × UE)) (apd : List (ℕ × AP)) (ue_id : ℕ) (ue : UE) (cur : AP)
    (hue : st.ue_dict = some ued) (hl : dlookup ued ue_id = some ue)
    (hap : st.ap_dict = some apd) (hc : dlookup apd ue.ap = some cur) :
    perform_handoff O st ue_id ue.ap = (Except.ok ⟨false, none, none, none⟩, st) := by
  simp [perform_handoff, hue, hl, hap, hc]

/-- C7 witness: the no-op theorem applied to a concrete one-AP, one-UE
state. -/
theorem c7_witness :
    perform_handoff oracle0 stA 1 1 = (Except.ok ⟨false, none, none, none⟩, stA) :=
  c7_handoff_to_current_ap_is_noop oracle0 stA [(1, ueA)] [(1, apA)] 1 ueA apA
    rfl rfl rfl rfl

/-! ### C10: signal power is total, undefined only at distance zero -/

/-- C10: `get_ue_sig_power` computes nothing at distance 0 (no division or
domain error — the result is absent), and for every positive distance `d`
returns `round((10 * log10(1 / d²)) / 10)`, where `flog10` is the float
`math.log10`. -/
theorem c10_sig_power_total (flog10 : ℚ → ℚ) (d : ℚ) (h : 0 < d) :
    get_ue_sig_power flog10 0 = none ∧
    get_ue_sig_power flog10 d = some (pyRound ((10 * flog10 (1 / d ^ 2)) / 10)) := by
  constructor
  · simp [get_ue_sig_power]
  · simp [get_ue_sig_power, ne_of_gt h]

/-- C10 witness: the signal-power theorem at distance 2000 with the constant
oracle `flog10 = 0`. -/
theorem c10_witness :
    (0 : ℚ) < 2000 ∧
    get_ue_sig_power (fun _ => 0) 0 = none ∧
    get_ue_sig_power (fun _ => 0) 2000 = some (pyRound ((10 * 0) / 10)) :=
  ⟨by norm_num, (c10_sig_power_total (fun _ => 0) 2000 (by norm_num)).1,
   (c10_sig_power_total (fun _ => 0) 2000 (by norm_num)).2⟩

/-! ### C8: throughput model -/

/-- C8 counterexample: the claim states
`network_bandwidth = (1/n_ues_on_ap) * uplink_bandwidth` exactly, but the
code rounds it to 3 decimal places (`np.around`): at
`n_ues_on_ap = 3, uplink = 1.0` (with `distance 0`, `channel 10.0`,
`required 10.0`, and the float exp oracle returning `exp(0.0) = 1.0`
exactly) the code returns `0.333`, not the claim's `1/3`. -/
theorem c8_counterexample :
    get_ue_throughput (fun _ => 1) 100 0 3 1 10 10 = 333 / 1000 ∧
    min (calculate_radio_bandwidth (calculate_distance_factor (fun _ => 1) 0 100) 10)
      (min (1 / (3 : ℚ) * 1) 10) = 1 / 3 ∧
    (333 / 1000 : ℚ) ≠ 1 / 3 := by
  refine ⟨?_, ?_, by norm_num⟩ <;>
    norm_num [get_ue_throughput, calculate_distance_factor,
      calculate_radio_bandwidth, calculate_network_bandwidth, round3,
      roundHE, min_def]

/-- C8 (amended): `get_ue_throughput` returns exactly
`min(radio_bandwidth, network_bandwidth, app_required_bandwidth)` where
`network_bandwidth = np.around((1/n_ues_on_ap) * uplink, 3)` for
`n_ues_on_ap > 0` and `np.around(uplink, 3)` for `n_ues_on_ap = 0` (no
division-by-zero failure); SLA is met (`get_ue_sla` returns 1) iff
throughput ≥ required bandwidth; and
`get_ue_throughput(100, 441.367, 58, 50.0, 10.0, 0.25) = 0.25` for every
float exp oracle with `fexp(-441.367/200) ≥ 1/40` (the true value is
`exp(-2.206835) ≈ 0.1101`). -/
theorem c8_throughput_spec (fexp : ℚ → ℚ) (scale d up ch req t r : ℚ) (n : ℕ)
    (hex : 1 / 40 ≤ fexp (-(441367 / 1000) / (2 * 100))) :
    get_ue_throughput fexp scale d n up ch req =
      min (calculate_radio_bandwidth (calculate_distance_factor fexp d scale) ch)
        (min (calculate_network_bandwidth n up) req) ∧
    calculate_network_bandwidth 0 up = round3 up ∧
    (n ≠ 0 → calculate_network_bandwidth n up = round3 (1 / (n : ℚ) * up)) ∧
    (get_ue_sla t r = 1 ↔ r ≤ t) ∧
    get_ue_throughput fexp 100 (441367 / 1000) 58 50 10 (1 / 4) = 1 / 4 := by
  refine ⟨rfl, by norm_num [calculate_network_bandwidth], ?_, ?_, ?_⟩
  · intro hn
    simp [calculate_network_bandwidth, hn]
  · constructor
    · intro h1
      by_contra hrt
      simp [get_ue_sla, hrt] at h1
    · intro h1
      simp [get_ue_sla, h1]
  · have hdf : (1 / 40 : ℚ) ≤ calculate_distance_factor fexp (441367 / 1000) 100 := by
      unfold calculate_distance_factor
      exact le_round3 (1 / 40) _ (by norm_num) hex
    have hradio : (1 / 4 : ℚ) ≤
        calculate_radio_bandwidth (calculate_distance_factor fexp (441367 / 1000) 100) 10 := by
      unfold calculate_radio_bandwidth
      refine le_round3 (1 / 4) _ (by norm_num) ?_
      nlinarith
    have hnet : calculate_network_bandwidth 58 50 = 431 / 500 := by
      norm_num [calculate_network_bandwidth, round3, roundHE]
    simp only [get_ue_throughput]
    rw [hnet, show min ((431 : ℚ) / 500) (1 / 4) = 1 / 4 from min_eq_right (by norm_num)]
    exact min_eq_right hradio

/-- C8 witness: the amended throughput theorem applied to the constant
oracle `fexp = 0.11` (the rounded value of `exp(-2.206835)`). -/
theorem c8_witness :
    (1 / 40 : ℚ) ≤ (fun _ : ℚ => (11 : ℚ) / 100) (-(441367 / 1000) / (2 * 100)) ∧
    get_ue_throughput (fun _ : ℚ => (11 : ℚ) / 100) 100 (441367 / 1000) 58 50 10 (1 / 4) =
      1 / 4 :=
  ⟨by norm_num,
   (c8_throughput_spec (fun _ : ℚ => (11 : ℚ) / 100) 100 (441367 / 1000) 50 10
     (1 / 4) 1 2 58 (by norm_num)).2.2.2.2⟩

/-! ### C9: get_interval -/

/-- Helper facts about the strictly-increasing hypothesis of C9. -/
theorem pairwise_head_lt_lastD (x y : ℚ) (t : List ℚ)
    (hs : (x :: y :: t).Pairwise (· < ·)) :
    x < (x :: y :: t).getLastD 0 := by
  rcases List.pairwise_cons.mp hs with ⟨hx, _⟩
  have hmem : (x :: y :: t).getLastD 0 ∈ y :: t := by
    rw [List.getLastD_cons, List.getLastD_cons]
    exact List.getLastD_mem_cons t y
  exact hx _ hmem

theorem dropLast_getLast_spec :
    ∀ (t : List ℚ) (x y : ℚ),
      (x :: y :: t).dropLast.getLast? =
        some ((x :: y :: t).getD ((x :: y :: t).length - 2) 0) := by
  intro t
  induction t with
  | nil => intro x y; rfl
  | cons z t' ih =>
    intro x y
    have h1 := ih y z
    have hlen1 : (x :: y :: z :: t').length - 2 = t'.length + 1 := by
      simp only [List.length_cons]; omega
    have hlen2 : (y :: z :: t').length - 2 = t'.length := by
      simp only [List.length_cons]; omega
    rw [hlen2] at h1
    rw [List.dropLast_cons₂] at h1
    rw [List.dropLast_cons₂, List.dropLast_cons₂, List.getLast?_cons_cons, hlen1]
    rw [h1, List.getD_cons_succ]

/-- The bracketing loop of `get_interval`: if some element of `l` is `≥ v`
and `prev < v`, the loop returns the first adjacent pair of `prev :: l`
bracketing `v`. -/
theorem bracket_loop_spec (v : ℚ) :
    ∀ (l : List ℚ) (prev : ℚ), (∃ w ∈ l, v ≤ w) → prev < v →
      ∃ i : ℕ, i + 1 < (prev :: l).length ∧
        (prev :: l).getD i 0 < v ∧ v ≤ (prev :: l).getD (i + 1) 0 ∧
        bracket_loop v prev l =
          some ((prev :: l).getD i 0, (prev :: l).getD (i + 1) 0) := by
  intro l
  induction l with
  | nil =>
    intro prev hw _
    obtain ⟨w, hmem, _⟩ := hw
    exact absurd hmem (List.not_mem_nil w)
  | cons x xs ih =>
    intro prev hw hp
    by_cases hvx : v ≤ x
    · exact ⟨0, by simp, hp, hvx, by simp [bracket_loop, hvx]⟩
    · push_neg at hvx
      have hw' : ∃ w ∈ xs, v ≤ w := by
        obtain ⟨w, hmem, hvw⟩ := hw
        rcases List.mem_cons.mp hmem with rfl | hmem'
        · exact absurd hvw (not_le.mpr hvx)
        · exact ⟨w, hmem', hvw⟩
      obtain ⟨i, hlen, h1, h2, h3⟩ := ih x hw' hvx
      refine ⟨i + 1, by simpa using hlen, h1, h2, ?_⟩
      simpa [bracket_loop, not_le.mpr hvx] using h3

/-- C9 counterexample: the claim says out-of-range values clamp to the
nearest edge interval; for `value = 50 < 100` the code returns the
degenerate pair `(100, 100)`, which is not the edge interval `(100, 300)`
and not a pair of consecutive list elements. -/
theorem c9_counterexample :
    get_interval 50 [100, 300, 500, 700] = some (100, 100) ∧
    some ((100 : ℚ), (100 : ℚ)) ≠ some ((100 : ℚ), (300 : ℚ)) ∧
    [((100 : ℚ), (300 : ℚ)), (300, 500), (500, 700)].all
      (fun p => decide (p ≠ (100, 100))) = true := by
  refine ⟨by norm_num [get_interval], by norm_num, by norm_num⟩

/-- C9 (amended): for every strictly increasing coordinate list of length at
least 2: a value strictly between the first and last elements yields a pair
of consecutive list elements bracketing it; a boundary value (equal to the
first or last element) clamps to the nearest edge interval; an out-of-range
value yields the degenerate pair repeating the nearest endpoint (not an
interval of consecutive elements); and
`get_interval(345, [100, 300, 500, 700]) = (300, 500)`. -/
theorem c9_get_interval_spec (v : ℚ) (l : List ℚ)
    (hlen : 2 ≤ l.length) (hs : l.Pairwise (· < ·)) :
    (v < l.getD 0 0 → get_interval v l = some (l.getD 0 0, l.getD 0 0)) ∧
    (l.getLastD 0 < v → get_interval v l = some (l.getLastD 0, l.getLastD 0)) ∧
    (v = l.getD 0 0 → get_interval v l = some (l.getD 0 0, l.getD 1 0)) ∧
    (v = l.getLastD 0 → v ≠ l.getD 0 0 →
      get_interval v l = some (l.getD (l.length - 2) 0, l.getLastD 0)) ∧
    (l.getD 0 0 < v → v < l.getLastD 0 →
      ∃ i : ℕ, i + 1 < l.length ∧ l.getD i 0 < v ∧ v ≤ l.getD (i + 1) 0 ∧
        get_interval v l = some (l.getD i 0, l.getD (i + 1) 0)) ∧
    get_interval 345 [100, 300, 500, 700] = some (300, 500) := by
  match l, hlen with
  | x :: y :: t, _ =>
  have hlst : x < (x :: y :: t).getLastD 0 := pairwise_head_lt_lastD x y t hs
  have hlmem : (x :: y :: t).getLastD 0 ∈ y :: t := by
    rw [List.getLastD_cons, List.getLastD_cons]
    exact List.getLastD_mem_cons t y
  have hd0 : (x :: y :: t).getD 0 0 = x := rfl
  have hd1 : (x :: y :: t).getD 1 0 = y := rfl
  have hgi : get_interval v (x :: y :: t) =
      (if v < x then some (x, x)
       else if (x :: y :: t).getLastD 0 < v then
         some ((x :: y :: t).getLastD 0, (x :: y :: t).getLastD 0)
       else if v = x then some (x, y)
       else if v = (x :: y :: t).getLastD 0 then
         some ((x :: y :: t).getD ((x :: y :: t).length - 2) 0, (x :: y :: t).getLastD 0)
       else bracket_loop v ((x :: y :: t).getLastD 0) (x :: y :: t)) := by
    simp only [get_interval]
    rw [dropLast_getLast_spec t x y]
  refine ⟨?_, ?_, ?_, ?_, ?_, by norm_num [get_interval, bracket_loop]⟩
  · intro h
    rw [hd0] at h ⊢
    rw [hgi, if_pos h]
  · intro h
    rw [hgi, if_neg (not_lt.mpr (le_of_lt (lt_trans hlst h))), if_pos h]
  · intro h
    rw [hd0] at h
    subst h
    rw [hgi, if_neg (lt_irrefl v), if_neg (not_lt.mpr (le_of_lt hlst)), if_pos rfl,
      hd0, hd1]
  · intro h hne
    rw [hd0] at hne
    have h1 : ¬ v < x := by rw [h]; exact not_lt.mpr (le_of_lt hlst)
    have h2 : ¬ (x :: y :: t).getLastD 0 < v := by rw [h]; exact lt_irrefl _
    rw [hgi, if_neg h1, if_neg h2, if_neg hne, if_pos h]
  · intro hx hv
    rw [hd0] at hx
    have hloop : ∃ i : ℕ, i + 1 < (x :: y :: t).length ∧
        (x :: y :: t).getD i 0 < v ∧ v ≤ (x :: y :: t).getD (i + 1) 0 ∧
        bracket_loop v x (y :: t) =
          some ((x :: y :: t).getD i 0, (x :: y :: t).getD (i + 1) 0) := by
      have hw : ∃ w ∈ y :: t, v ≤ w :=
        ⟨(x :: y :: t).getLastD 0, hlmem, le_of_lt hv⟩
      exact bracket_loop_spec v (y :: t) x hw hx
    obtain ⟨i, hi1, hi2, hi3, hi4⟩ := hloop
    refine ⟨i, hi1, hi2, hi3, ?_⟩
    rw [hgi, if_neg (not_lt.mpr (le_of_lt hx)), if_neg (not_lt.mpr (le_of_lt hv)),
      if_neg (ne_of_gt hx), if_neg (ne_of_lt hv)]
    rw [show bracket_loop v ((x :: y :: t).getLastD 0) (x :: y :: t) =
        bracket_loop v x (y :: t) from by simp [bracket_loop, not_le.mpr hx]]
    exact hi4

/-- C9 witness: the interval theorem at the spec's example,
`get_interval(345, [100, 300, 500, 700]) = (300, 500)`. -/
theorem c9_witness :
    2 ≤ ([100, 300, 500, 700] : List ℚ).length ∧
    ([100, 300, 500, 700] : List ℚ).Pairwise (· < ·) ∧
    get_interval 345 [100, 300, 500, 700] = some (300, 500) :=
  ⟨by norm_num, by norm_num [List.pairwise_cons],
   (c9_get_interval_spec 345 [100, 300, 500, 700] (by norm_num)
     (by norm_num [List.pairwise_cons])).2.2.2.2.2⟩

/-! ### C4: neighbor lists and attachment points -/

/-- The per-UE placement property established by `_instantiate_ues`: there
are `within_grid` and `rest` sets computed from the UE's own location for
the configured radius, the attachment point is the first `within_grid`
location minimising the computed (rounded) distance, the UE's `ap` field is
that location's id, and `neighboring_aps` is the id translation of
`within_grid ++ rest` with the attachment location removed
(`neighboring_ap_ids`). -/
def UEPlacement (O : FloatOracle) (lk : List (Loc × ℕ)) (axis : List ℚ)
    (radius : ℕ) (ue : UE) : Prop :=
  ∃ wg rest cap_loc,
    get_neighboring_aps ue.location axis radius = some (wg, rest) ∧
    get_closest_ap_location O.fsqrt wg ue.location = some cap_loc ∧
    cap_loc ∈ wg ∧
    (∀ p ∈ wg, get_ue_ap_distance O.fsqrt cap_loc ue.location ≤
      get_ue_ap_distance O.fsqrt p ue.location) ∧
    dlookup lk cap_loc = some ue.ap ∧
    neighboring_ap_ids lk cap_loc (wg ++ rest) = Except.ok ue.neighboring_aps

/-- The argmin fold of `get_closest_ap_location`: the result is an element
of the candidate list achieving the minimum computed distance. -/
theorem closest_fold_spec (f : ℚ → ℚ) (u : Loc) :
    ∀ (l : List Loc) (b : Loc) (d : ℚ), d = get_ue_ap_distance f b u →
      ((l.foldl
          (fun acc ap =>
            let d' := get_ue_ap_distance f ap u
            if d' < acc.2 then (ap, d') else acc)
          (b, d)).1 ∈ b :: l ∧
       get_ue_ap_distance f
         (l.foldl
           (fun acc ap =>
             let d' := get_ue_ap_distance f ap u
             if d' < acc.2 then (ap, d') else acc)
           (b, d)).1 u ≤ d ∧
       ∀ p ∈ l, get_ue_ap_distance f
         (l.foldl
           (fun acc ap =>
             let d' := get_ue_ap_distance f ap u
             if d' < acc.2 then (ap, d') else acc)
           (b, d)).1 u ≤ get_ue_ap_distance f p u) := by
  intro l
  induction l with
  | nil =>
    intro b d hd
    subst hd
    exact ⟨List.mem_cons_self b [], le_rfl, fun p hp => absurd hp (List.not_mem_nil p)⟩
  | cons x xs ih =>
    intro b d hd
    by_cases hlt : get_ue_ap_distance f x u < d
    · have h := ih x (get_ue_ap_distance f x u) rfl
      refine ⟨?_, ?_, ?_⟩
      · simp only [List.foldl_cons, if_pos hlt]
        rcases List.mem_cons.mp h.1 with h1 | h1
        · exact List.mem_cons_of_mem b (by rw [h1]; exact List.mem_cons_self x xs)
        · exact List.mem_cons_of_mem b (List.mem_cons_of_mem x h1)
      · simp only [List.foldl_cons, if_pos hlt]
        exact le_of_lt (lt_of_le_of_lt h.2.1 hlt)
      · intro p hp
        simp only [List.foldl_cons, if_pos hlt]
        rcases List.mem_cons.mp hp with rfl | hp'
        · exact h.2.1
        · exact h.2.2 p hp'
    · have h := ih b d hd
      push_neg at hlt
      refine ⟨?_, ?_, ?_⟩
      · simp only [List.foldl_cons, if_neg (not_lt.mpr hlt)]
        rcases List.mem_cons.mp h.1 with h1 | h1
        · rw [h1]; exact List.mem_cons_self b (x :: xs)
        · exact List.mem_cons_of_mem b (List.mem_cons_of_mem x h1)
      · simp only [List.foldl_cons, if_neg (not_lt.mpr hlt)]
        exact h.2.1
      · intro p hp
        simp only [List.foldl_cons, if_neg (not_lt.mpr hlt)]
        rcases List.mem_cons.mp hp with rfl | hp'
        · exact le_trans h.2.1 (hd ▸ hlt)
        · exact h.2.2 p hp'

/-- Specification of `get_closest_ap_location`: the result belongs to the
list and minimises the computed distance. -/
theorem get_closest_ap_location_spec (f : ℚ → ℚ) (l : List Loc) (u : Loc)
    (c : Loc) (h : get_closest_ap_location f l u = some c) :
    c ∈ l ∧ ∀ p ∈ l, get_ue_ap_distance f c u ≤ get_ue_ap_distance f p u := by
  match l, h with
  | b :: rest, h =>
    have hspec := closest_fold_spec f u rest b (get_ue_ap_distance f b u) rfl
    have hc : c = (rest.foldl
        (fun acc ap =>
          let d' := get_ue_ap_distance f ap u
          if d' < acc.2 then (ap, d') else acc)
        (b, get_ue_ap_distance f b u)).1 := by
      simpa [get_closest_ap_location] using h.symm
    subst hc
    refine ⟨hspec.1, fun p hp => ?_⟩
    rcases List.mem_cons.mp hp with rfl | hp'
    · exact hspec.2.1
    · exact hspec.2.2 p hp'

/-- Inversion of `get_ue_ap`. -/
theorem get_ue_ap_inv (f : ℚ → ℚ) (loc : Loc) (axis : List ℚ) (radius : ℕ)
    (c : Loc) (nb : List Loc)
    (h : get_ue_ap f loc axis radius = some (c, nb)) :
    ∃ wg rest, get_neighboring_aps loc axis radius = some (wg, rest) ∧
      get_closest_ap_location f wg loc = some c ∧ nb = wg ++ rest := by
  unfold get_ue_ap at h
  cases hnb : get_neighboring_aps loc axis radius with
  | none => rw [hnb] at h; simp at h
  | some p =>
    obtain ⟨wg, rest⟩ := p
    rw [hnb] at h
    cases hc : get_closest_ap_location f wg loc with
    | none => simp [hc] at h
    | some c' =>
      simp [hc] at h
      exact ⟨wg, rest, rfl, by rw [hc, h.1], h.2.symm⟩

/-- `_instantiate_ues` never touches the lookup table, the axis, the radius
or the scale. -/
theorem instantiate_loop_fields (O : FloatOracle) (D : RandomDraws) :
    ∀ (ids : List ℕ) (st : NetState) (acc : List (ℕ × UE)),
      (instantiate_loop O D ids st acc).2.location_to_ap_lookup =
        st.location_to_ap_lookup ∧
      (instantiate_loop O D ids st acc).2.aps_per_axis = st.aps_per_axis ∧
      (instantiate_loop O D ids st acc).2.explore_radius = st.explore_radius ∧
      (instantiate_loop O D ids st acc).2.scale = st.scale := by
  intro ids
  induction ids with
  | nil => intro st acc; exact ⟨rfl, rfl, rfl, rfl⟩
  | cons i rest ih =>
    intro st acc
    simp only [instantiate_loop]
    split
    · exact ⟨rfl, rfl, rfl, rfl⟩
    · split
      · exact ⟨rfl, rfl, rfl, rfl⟩
      · split
        · exact ⟨rfl, rfl, rfl, rfl⟩
        · split
          · exact ⟨rfl, rfl, rfl, rfl⟩
          · split
            · exact ⟨rfl, rfl, rfl, rfl⟩
            · exact ⟨(ih _ _).1, (ih _ _).2.1, (ih _ _).2.2.1, (ih _ _).2.2.2⟩

/-- Equation form of `instantiate_loop_fields`. -/
theorem instantiate_loop_fields_of (O : FloatOracle) (D : RandomDraws)
    (ids : List ℕ) (st : NetState) (acc : List (ℕ × UE))
    (r : Except Err (List (ℕ × UE))) (st' : NetState)
    (h : instantiate_loop O D ids st acc = (r, st')) :
    st'.location_to_ap_lookup = st.location_to_ap_lookup ∧
    st'.aps_per_axis = st.aps_per_axis ∧
    st'.explore_radius = st.explore_radius ∧
    st'.scale = st.scale := by
  have hf := instantiate_loop_fields O D ids st acc
  rw [h] at hf
  exact hf

/-- Every UE record in the dictionary built by `_instantiate_ues` satisfies
`UEPlacement`. -/
theorem instantiate_loop_placement (O : FloatOracle) (D : RandomDraws) :
    ∀ (ids : List ℕ) (st : NetState) (acc ued' : List (ℕ × UE)) (st' : NetState),
      instantiate_loop O D ids st acc = (Except.ok ued', st') →
      (∀ i ue, dlookup acc i = some ue →
        UEPlacement O st.location_to_ap_lookup st.aps_per_axis st.explore_radius ue) →
      ∀ i ue, dlookup ued' i = some ue →
        UEPlacement O st.location_to_ap_lookup st.aps_per_axis st.explore_radius ue := by
  intro ids
  induction ids with
  | nil =>
    intro st acc ued' st' h hacc
    simp only [instantiate_loop, Prod.mk.injEq, Except.ok.injEq] at h
    rw [← h.1]
    exact hacc
  | cons i rest ih =>
    intro st acc ued' st' h hacc
    simp only [instantiate_loop] at h
    split at h
    · simp at h
    · rename_i cap_loc nbrs heq1
      split at h
      · simp at h
      · rename_i cap_id heq2
        split at h
        · simp at h
        · rename_i apd heq3
          split at h
          · simp at h
          · rename_i cap heq4
            split at h
            · simp at h
            · rename_i nbr_ids heq5
              refine fun j ue hj => ih _ _ _ _ h ?_ j ue hj
              intro j ue hj
              rw [dlookup_append] at hj
              cases hd : dlookup acc j with
              | some ue' =>
                rw [hd] at hj
                injection hj with hj'
                exact hj' ▸ hacc j ue' hd
              | none =>
                rw [hd] at hj
                by_cases hji : j = i
                · subst hji
                  simp only [dlookup, if_pos rfl] at hj
                  injection hj with hj'
                  subst hj'
                  obtain ⟨wg, rest₀, hnb, hcl, hnbrs⟩ :=
                    get_ue_ap_inv O.fsqrt (D.locOf j) st.aps_per_axis
                      st.explore_radius cap_loc nbrs heq1
                  obtain ⟨hmem, hmin⟩ :=
                    get_closest_ap_location_spec O.fsqrt wg (D.locOf j) cap_loc hcl
                  subst hnbrs
                  exact ⟨wg, rest₀, cap_loc, hnb, hcl, hmem, hmin, heq2, heq5⟩
                · simp [dlookup, hji] at hj

/-- C4 (amended): (a) for every UE created at initialization, the
attachment point is the first `within_grid` AP minimising the computed
(float-sqrt, 3-decimals-rounded) distance, the UE's `ap` field is that AP's
id, and `neighboring_aps` is the id list of `within_grid ++ rest` with the
current AP's location removed by `neighboring_ap_ids` — not the full union:
the attachment AP itself is excluded; (b) after every successful handoff
(`DONE=True`), the handed-off UE's attachment is the requested AP and its
`neighboring_aps` is the id list of `within_grid ++ rest` recomputed from
its location, with the new AP's location removed. -/
theorem c4_neighbor_lists (O : FloatOracle) :
    (∀ (D : RandomDraws) (nu na : ℕ) (sc : ℚ) (r : ℕ) (st : NetState)
        (ued : List (ℕ × UE)) (i : ℕ) (ue : UE),
      initNetwork O D nu na sc r = Except.ok st →
      st.ue_dict = some ued → dlookup ued i = some ue →
      UEPlacement O st.location_to_ap_lookup st.aps_per_axis st.explore_radius ue) ∧
    (∀ (st : NetState) (ue_id ap_id : ℕ) (res : HandoffResult) (st' : NetState)
        (ued' : List (ℕ × UE)) (ue' : UE),
      perform_handoff O st ue_id ap_id = (Except.ok res, st') → res.done = true →
      st'.ue_dict = some ued' → dlookup ued' ue_id = some ue' →
      ∃ wg rest apd' nap',
        st'.ap_dict = some apd' ∧ dlookup apd' ap_id = some nap' ∧ ue'.ap = ap_id ∧
        get_neighboring_aps ue'.location st'.aps_per_axis st'.explore_radius =
          some (wg, rest) ∧
        neighboring_ap_ids st'.location_to_ap_lookup nap'.location (wg ++ rest) =
          Except.ok ue'.neighboring_aps) := by
  constructor
  · intro D nu na sc r st ued i ue hinit hued hlk
    simp only [initNetwork, instantiate_ues] at hinit
    split at hinit
    · simp at hinit
    · rename_i ued₁ st₁ heq
      injection hinit with hinit
      subst hinit
      simp only [Option.some.injEq] at hued
      subst hued
      have hf := instantiate_loop_fields_of O D _ _ _ _ _ heq
      show UEPlacement O st₁.location_to_ap_lookup st₁.aps_per_axis
        st₁.explore_radius ue
      rw [hf.1, hf.2.1, hf.2.2.1]
      exact instantiate_loop_placement O D (List.range' 1 nu) _ [] ued₁ st₁ heq
        (fun j u hju => by simp [dlookup] at hju) i ue hlk
  · intro st ue_id ap_id res st' ued' ue' hph hdone hued hlk
    simp only [perform_handoff] at hph
    split at hph
    · simp at hph
    · rename_i ued heq1
      split at hph
      · simp at hph
      · rename_i ue heq2
        split at hph
        · simp at hph
        · rename_i apd heq3
          split at hph
          · simp at hph
          · rename_i cur heq4
            split at hph
            · -- ue.ap = ap_id: DONE=False, contradicting hdone
              rename_i hsame
              rw [Prod.mk.injEq] at hph
              obtain ⟨hres, hst⟩ := hph
              injection hres with hres
              rw [← hres] at hdone
              simp at hdone
            · rename_i hne
              simp only [handoff_to_ap] at hph
              split at hph
              · split at hph
                · simp at hph
                · rename_i nap heq5
                  split at hph
                  · simp at hph
                  · rename_i nbrs heq6
                    rw [Prod.mk.injEq] at hph
                    obtain ⟨hres, hst⟩ := hph
                    injection hres with hres
                    subst hres hst
                    simp only [Option.some.injEq] at hued
                    subst hued
                    rw [dlookup_dinsert_self] at hlk
                    injection hlk with hlk
                    subst hlk
                    simp only [fetch_neighboring_aps] at heq6
                    split at heq6
                    · simp at heq6
                    · rename_i wg rest heq7
                      refine ⟨wg, rest, _, _, rfl, dlookup_dinsert_self _ _ _, rfl,
                        heq7, ?_⟩
                      simpa [update_ue_stats] using heq6
              · simp at hph

/-- C4 witness: the placement theorem applied to the concrete one-AP,
one-UE network. -/
theorem c4_witness : UEPlacement oracle0 [((100, 100), 1)] [100] 1 ueA :=
  (c4_neighbor_lists oracle0).1 draws0 1 1 100 1 stA [(1, ueA)] 1 ueA
    eval_stA rfl rfl

/-- C4 counterexample: the claim says a UE's `neighboring_aps` equals the
AP ids of the whole `within_grid ∪ rest`; in the concrete network the union
is `{(100, 100)}` with id 1 — the UE's attachment AP — but the stored
neighbor list is empty, because `neighboring_ap_ids` removes the current
AP's location. -/
theorem c4_counterexample :
    initNetwork oracle0 draws0 1 1 100 1 = Except.ok stA ∧
    (dlookup (stA.ue_dict.getD []) 1).map (fun ue => ue.neighboring_aps) =
      some [] ∧
    (dlookup (stA.ue_dict.getD []) 1).map (fun ue => ue.ap) = some 1 ∧
    get_neighboring_aps (120, 140) stA.aps_per_axis stA.explore_radius =
      some ([(100, 100)], []) ∧
    dlookup stA.location_to_ap_lookup (100, 100) = some 1 ∧
    (1 : ℕ) ∉ ([] : List ℕ) := by
  refine ⟨eval_stA, ?_, ?_, eval_neighbors_A, ?_, by simp⟩
  · simp [stA, dlookup, ueA]
  · simp [stA, dlookup, ueA]
  · simp [stA, dlookup]

/-! ### C5 and C6: the attachment relation and SLA counter invariants -/

/-- `slaOne ued i` holds when the UE dictionary stores a UE with id `i`
whose `sla` field is 1. -/
def slaOne (ued : List (ℕ × UE)) (i : ℕ) : Bool :=
  match dlookup ued i with
  | some ue => decide (ue.sla = 1)
  | none => false

/-- The simulator's dictionary invariant: keys agree with the stored ids,
every stored SLA is 0 or 1, attachment is a bidirectional relation (the
UE's `ap`/`app` fields point to the unique AP set containing it and back),
and every `ues_meeting_sla` counter equals the number of attached UEs of
that class whose stored `sla` is 1. -/
structure InvD (apd : List (ℕ × AP)) (ued : List (ℕ × UE)) : Prop where
  ue_key : ∀ i ue, dlookup ued i = some ue → ue.ue_id = i
  ap_key : ∀ a ap, dlookup apd a = some ap → ap.ap_id = a
  sla01 : ∀ i ue, dlookup ued i = some ue → ue.sla = 0 ∨ ue.sla = 1
  ue_ap : ∀ i ue, dlookup ued i = some ue →
    ∃ ap, dlookup apd ue.ap = some ap ∧ i ∈ ap.n_ues ue.app
  ap_ue : ∀ a ap c i, dlookup apd a = some ap → i ∈ ap.n_ues c →
    ∃ ue, dlookup ued i = some ue ∧ ue.ap = a ∧ ue.app = c
  counter : ∀ a ap c, dlookup apd a = some ap →
    ap.ues_meeting_sla c =
      (((ap.n_ues c).filter (fun i => slaOne ued i = true)).card : ℤ)

/-- The state-level invariant. -/
def InvS (st : NetState) : Prop :=
  ∃ apd ued, st.ap_dict = some apd ∧ st.ue_dict = some ued ∧ InvD apd ued

theorem dlookup_mem {κ α : Type} [DecidableEq κ] :
    ∀ (d : List (κ × α)) (k : κ) (v : α), dlookup d k = some v → (k, v) ∈ d := by
  intro d
  induction d with
  | nil => intro k v h; simp [dlookup] at h
  | cons hd tl ih =>
    intro k v h
    obtain ⟨k₀, v₀⟩ := hd
    by_cases hk : k = k₀
    · subst hk
      simp [dlookup] at h
      exact h ▸ List.mem_cons_self _ _
    · simp [dlookup, hk] at h
      exact List.mem_cons_of_mem _ (ih k v h)

theorem slaOne_dinsert (ued : List (ℕ × UE)) (i : ℕ) (ue : UE) (j : ℕ) :
    slaOne (dinsert ued i ue) j =
      if j = i then decide (ue.sla = 1) else slaOne ued j := by
  by_cases h : j = i
  · subst h
    simp [slaOne, dlookup_dinsert_self]
  · simp [slaOne, dlookup_dinsert_ne ued i j ue h, h]

theorem get_ue_sla_01 (t r : ℚ) : get_ue_sla t r = 0 ∨ get_ue_sla t r = 1 := by
  unfold get_ue_sla
  split
  · right; rfl
  · left; rfl

/-- Freshly placed AP records: key-consistent ids, empty attachment sets,
zero counters. -/
def APInit (apd : List (ℕ × AP)) : Prop :=
  ∀ a ap, dlookup apd a = some ap →
    ap.ap_id = a ∧ (∀ c, ap.n_ues c = ∅) ∧ (∀ c, ap.ues_meeting_sla c = 0)

theorem APInit_dinsert (apd : List (ℕ × AP)) (k : ℕ) (loc : Loc)
    (h : APInit apd) : APInit (dinsert apd k (mkAP k loc)) := by
  intro a ap ha
  by_cases hk : a = k
  · subst hk
    rw [dlookup_dinsert_self] at ha
    injection ha with ha
    subst ha
    exact ⟨rfl, fun c => rfl, fun c => rfl⟩
  · rw [dlookup_dinsert_ne _ _ _ _ hk] at ha
    exact h a ap ha

theorem place_aps_loop_init :
    ∀ (locs : List Loc) (lk : List (Loc × ℕ)) (apd : List (ℕ × AP)) (k : ℕ),
      APInit apd → APInit (place_aps_loop lk apd k locs).2 := by
  intro locs
  induction locs with
  | nil => intro lk apd k h; exact h
  | cons loc rest ih =>
    intro lk apd k h
    exact ih _ _ _ (APInit_dinsert apd k loc h)

theorem place_aps_init (axis : List ℚ) (lk : List (Loc × ℕ)) :
    APInit (place_aps axis lk).2 :=
  place_aps_loop_init _ lk [] 1 (fun a ap ha => by simp [dlookup] at ha)

theorem InvD_of_APInit (apd : List (ℕ × AP)) (h : APInit apd) : InvD apd [] := by
  refine ⟨?_, ?_, ?_, ?_, ?_, ?_⟩
  · intro i ue hi; simp [dlookup] at hi
  · intro a ap ha; exact (h a ap ha).1
  · intro i ue hi; simp [dlookup] at hi
  · intro i ue hi; simp [dlookup] at hi
  · intro a ap c i ha hi
    rw [(h a ap ha).2.1 c] at hi
    exact absurd hi (Finset.not_mem_empty i)
  · intro a ap c ha
    rw [(h a ap ha).2.1 c, (h a ap ha).2.2 c]
    simp

/-- Attaching a fresh UE `i` to the AP at key `a` preserves the invariant:
`ue₃` is the new UE record (id `i`, attached to `a`), `cap'` is the AP
record after `n_ues[app].add(i)` and `ues_meeting_sla[app] += ue₃.sla`. -/
theorem InvD_attach (apd : List (ℕ × AP)) (ued : List (ℕ × UE)) (i a : ℕ)
    (cap : AP) (ue₃ : UE) (cap' : AP)
    (hInv : InvD apd ued)
    (hfresh : dlookup ued i = none)
    (hcap : dlookup apd a = some cap)
    (hid : ue₃.ue_id = i) (hap3 : ue₃.ap = a)
    (hsla : ue₃.sla = 0 ∨ ue₃.sla = 1)
    (hc1 : cap'.ap_id = cap.ap_id)
    (hc2 : ∀ c, cap'.n_ues c =
      if c = ue₃.app then insert i (cap.n_ues c) else cap.n_ues c)
    (hc3 : ∀ c, cap'.ues_meeting_sla c =
      if c = ue₃.app then cap.ues_meeting_sla c + ue₃.sla
      else cap.ues_meeting_sla c) :
    InvD (dinsert apd a cap') (dinsert ued i ue₃) := by
  have hfreshMem : ∀ a' ap' c, dlookup apd a' = some ap' → i ∉ ap'.n_ues c := by
    intro a' ap' c ha' hmem
    obtain ⟨ue', hue', _, _⟩ := hInv.ap_ue a' ap' c i ha' hmem
    rw [hfresh] at hue'
    exact absurd hue' (by simp)
  have hcong : ∀ (s : Finset ℕ), (∀ j ∈ s, j ≠ i) →
      s.filter (fun j => slaOne (dinsert ued i ue₃) j = true) =
        s.filter (fun j => slaOne ued j = true) := by
    intro s hs
    refine Finset.filter_congr ?_
    intro j hj
    rw [slaOne_dinsert, if_neg (hs j hj)]
  refine ⟨?_, ?_, ?_, ?_, ?_, ?_⟩
  · intro j uej hj
    by_cases hji : j = i
    · subst hji
      rw [dlookup_dinsert_self] at hj
      injection hj with hj
      subst hj
      exact hid
    · rw [dlookup_dinsert_ne _ _ _ _ hji] at hj
      exact hInv.ue_key j uej hj
  · intro b apb hb
    by_cases hba : b = a
    · subst hba
      rw [dlookup_dinsert_self] at hb
      injection hb with hb
      subst hb
      rw [hc1]
      exact hInv.ap_key b cap hcap
    · rw [dlookup_dinsert_ne _ _ _ _ hba] at hb
      exact hInv.ap_key b apb hb
  · intro j uej hj
    by_cases hji : j = i
    · subst hji
      rw [dlookup_dinsert_self] at hj
      injection hj with hj
      subst hj
      exact hsla
    · rw [dlookup_dinsert_ne _ _ _ _ hji] at hj
      exact hInv.sla01 j uej hj
  · intro j uej hj
    by_cases hji : j = i
    · subst hji
      rw [dlookup_dinsert_self] at hj
      injection hj with hj
      subst hj
      refine ⟨cap', ?_, ?_⟩
      · rw [hap3, dlookup_dinsert_self]
      · rw [hc2, if_pos rfl]
        exact Finset.mem_insert_self _ _
    · rw [dlookup_dinsert_ne _ _ _ _ hji] at hj
      obtain ⟨apj, hapj, hmemj⟩ := hInv.ue_ap j uej hj
      by_cases hja : uej.ap = a
      · rw [hja] at hapj
        rw [hcap] at hapj
        injection hapj with hapj
        subst hapj
        refine ⟨cap', ?_, ?_⟩
        · rw [hja, dlookup_dinsert_self]
        · rw [hc2]
          by_cases happ : uej.app = ue₃.app
          · rw [if_pos happ]
            exact Finset.mem_insert_of_mem hmemj
          · rw [if_neg happ]
            exact hmemj
      · exact ⟨apj, by rw [dlookup_dinsert_ne _ _ _ _ hja]; exact hapj, hmemj⟩
  · intro b apb c j hb hmem
    by_cases hba : b = a
    · subst hba
      rw [dlookup_dinsert_self] at hb
      injection hb with hb
      subst hb
      rw [hc2] at hmem
      by_cases hc : c = ue₃.app
      · rw [if_pos hc] at hmem
        rcases Finset.mem_insert.mp hmem with rfl | hmem'
        · exact ⟨ue₃, by rw [dlookup_dinsert_self], hap3, hc.symm⟩
        · obtain ⟨uej, hj, hj2, hj3⟩ := hInv.ap_ue b cap c j hcap hmem'
          have hji : j ≠ i := fun hji => by
            rw [hji, hfresh] at hj; exact absurd hj (by simp)
          exact ⟨uej, by rw [dlookup_dinsert_ne _ _ _ _ hji]; exact hj, hj2, hj3⟩
      · rw [if_neg hc] at hmem
        obtain ⟨uej, hj, hj2, hj3⟩ := hInv.ap_ue b cap c j hcap hmem
        have hji : j ≠ i := fun hji => by
          rw [hji, hfresh] at hj; exact absurd hj (by simp)
        exact ⟨uej, by rw [dlookup_dinsert_ne _ _ _ _ hji]; exact hj, hj2, hj3⟩
    · rw [dlookup_dinsert_ne _ _ _ _ hba] at hb
      obtain ⟨uej, hj, hj2, hj3⟩ := hInv.ap_ue b apb c j hb hmem
      have hji : j ≠ i := fun hji => by
        rw [hji, hfresh] at hj; exact absurd hj (by simp)
      exact ⟨uej, by rw [dlookup_dinsert_ne _ _ _ _ hji]; exact hj, hj2, hj3⟩
  · intro b apb c hb
    by_cases hba : b = a
    · subst hba
      rw [dlookup_dinsert_self] at hb
      injection hb with hb
      subst hb
      rw [hc3, hc2]
      have hni : i ∉ cap.n_ues c := hfreshMem b cap c hcap
      have hmemne : ∀ j ∈ cap.n_ues c, j ≠ i := by
        intro j hj hji
        exact hni (hji ▸ hj)
      by_cases hc : c = ue₃.app
      · rw [if_pos hc, if_pos hc, Finset.filter_insert]
        rcases hsla with h0 | h1
        · rw [if_neg (by rw [slaOne_dinsert, if_pos rfl, h0]; simp)]
          rw [hcong _ hmemne, ← hInv.counter b cap c hcap, h0, add_zero]
        · rw [if_pos (by rw [slaOne_dinsert, if_pos rfl, h1]; simp)]
          rw [Finset.card_insert_of_not_mem
            (fun hmem => hni (Finset.mem_filter.mp hmem).1)]
          rw [hcong _ hmemne, h1]
          push_cast
          rw [hInv.counter b cap c hcap]
      · rw [if_neg hc, if_neg hc, hcong _ hmemne]
        exact hInv.counter b cap c hcap
    · rw [dlookup_dinsert_ne _ _ _ _ hba] at hb
      have hmemne : ∀ j ∈ apb.n_ues c, j ≠ i := by
        intro j hj hji
        exact hfreshMem b apb c hb (hji ▸ hj)
      rw [hcong _ hmemne]
      exact hInv.counter b apb c hb

/-- A successful handoff preserves the invariant: UE `i` (record `ue`)
moves from the AP at key `ue.ap` (record `cur`, detached copy `cur₁`) to
the AP at key `b ≠ ue.ap` (record `nap`, attached copy `nap₂`), and its
record becomes `ue₃` (attached to `b`, same class, fresh 0/1 SLA). -/
theorem InvD_handoff (apd : List (ℕ × AP)) (ued : List (ℕ × UE)) (i b : ℕ)
    (ue : UE) (cur nap : AP) (ue₃ : UE) (cur₁ nap₂ : AP)
    (hInv : InvD apd ued)
    (hue : dlookup ued i = some ue)
    (hcur : dlookup apd ue.ap = some cur)
    (hneq : ue.ap ≠ b)
    (hnap : dlookup apd b = some nap)
    (h3id : ue₃.ue_id = ue.ue_id) (h3ap : ue₃.ap = b) (h3app : ue₃.app = ue.app)
    (h3sla : ue₃.sla = 0 ∨ ue₃.sla = 1)
    (hc1 : cur₁.ap_id = cur.ap_id)
    (hc2 : ∀ c, cur₁.n_ues c =
      if c = ue.app then (cur.n_ues c).erase ue.ue_id else cur.n_ues c)
    (hc3 : ∀ c, cur₁.ues_meeting_sla c =
      if c = ue.app then cur.ues_meeting_sla c - ue.sla
      else cur.ues_meeting_sla c)
    (hn1 : nap₂.ap_id = nap.ap_id)
    (hn2 : ∀ c, nap₂.n_ues c =
      if c = ue.app then insert ue.ue_id (nap.n_ues c) else nap.n_ues c)
    (hn3 : ∀ c, nap₂.ues_meeting_sla c =
      if c = ue.app then nap.ues_meeting_sla c + ue₃.sla
      else nap.ues_meeting_sla c) :
    InvD (dinsert (dinsert apd ue.ap cur₁) b nap₂) (dinsert ued i ue₃) := by
  have hidI : ue.ue_id = i := hInv.ue_key i ue hue
  have hmemCur : i ∈ cur.n_ues ue.app := by
    obtain ⟨ap₀, h₀, hmem⟩ := hInv.ue_ap i ue hue
    rw [hcur] at h₀
    injection h₀ with h₀
    exact h₀ ▸ hmem
  have hUniq : ∀ a' ap' c, dlookup apd a' = some ap' → i ∈ ap'.n_ues c →
      a' = ue.ap ∧ c = ue.app := by
    intro a' ap' c ha' hmem
    obtain ⟨ue', hue', hap', happ'⟩ := hInv.ap_ue a' ap' c i ha' hmem
    rw [hue] at hue'
    injection hue' with hue'
    subst hue'
    exact ⟨hap'.symm, happ'.symm⟩
  have hNotNap : ∀ c, i ∉ nap.n_ues c := by
    intro c hmem
    exact hneq ((hUniq b nap c hnap hmem).1.symm)
  have hL : ∀ k, dlookup (dinsert (dinsert apd ue.ap cur₁) b nap₂) k =
      if k = b then some nap₂
      else if k = ue.ap then some cur₁ else dlookup apd k := by
    intro k
    by_cases hkb : k = b
    · subst hkb; rw [dlookup_dinsert_self, if_pos rfl]
    · rw [dlookup_dinsert_ne _ _ _ _ hkb, if_neg hkb]
      by_cases hka : k = ue.ap
      · subst hka; rw [dlookup_dinsert_self, if_pos rfl]
      · rw [dlookup_dinsert_ne _ _ _ _ hka, if_neg hka]
  have hcong : ∀ (s : Finset ℕ), (∀ j ∈ s, j ≠ i) →
      s.filter (fun j => slaOne (dinsert ued i ue₃) j = true) =
        s.filter (fun j => slaOne ued j = true) := by
    intro s hs
    refine Finset.filter_congr ?_
    intro j hj
    rw [slaOne_dinsert, if_neg (hs j hj)]
  refine ⟨?_, ?_, ?_, ?_, ?_, ?_⟩
  · intro j uej hj
    by_cases hji : j = i
    · subst hji
      rw [dlookup_dinsert_self] at hj
      injection hj with hj
      subst hj
      exact h3id.trans hidI
    · rw [dlookup_dinsert_ne _ _ _ _ hji] at hj
      exact hInv.ue_key j uej hj
  · intro k apk hk
    rw [hL] at hk
    by_cases hkb : k = b
    · rw [if_pos hkb] at hk
      injection hk with hk
      subst hk
      rw [hn1]
      exact hkb ▸ hInv.ap_key b nap hnap
    · rw [if_neg hkb] at hk
      by_cases hka : k = ue.ap
      · rw [if_pos hka] at hk
        injection hk with hk
        subst hk
        rw [hc1]
        exact hka ▸ hInv.ap_key _ cur (hka ▸ hcur)
      · rw [if_neg hka] at hk
        exact hInv.ap_key k apk hk
  · intro j uej hj
    by_cases hji : j = i
    · subst hji
      rw [dlookup_dinsert_self] at hj
      injection hj with hj
      subst hj
      exact h3sla
    · rw [dlookup_dinsert_ne _ _ _ _ hji] at hj
      exact hInv.sla01 j uej hj
  · intro j uej hj
    by_cases hji : j = i
    · subst hji
      rw [dlookup_dinsert_self] at hj
      injection hj with hj
      subst hj
      refine ⟨nap₂, ?_, ?_⟩
      · rw [h3ap, hL, if_pos rfl]
      · rw [hn2, h3app, if_pos rfl, ← hidI]
        exact Finset.mem_insert_self _ _
    · rw [dlookup_dinsert_ne _ _ _ _ hji] at hj
      obtain ⟨apj, hapj, hmemj⟩ := hInv.ue_ap j uej hj
      by_cases hjb : uej.ap = b
      · rw [hjb, hnap] at hapj
        injection hapj with hapj
        subst hapj
        refine ⟨nap₂, by rw [hL, hjb, if_pos rfl], ?_⟩
        rw [hn2]
        by_cases happ : uej.app = ue.app
        · rw [if_pos happ]
          exact Finset.mem_insert_of_mem hmemj
        · rw [if_neg happ]
          exact hmemj
      · by_cases hja : uej.ap = ue.ap
        · rw [hja, hcur] at hapj
          injection hapj with hapj
          subst hapj
          refine ⟨cur₁, by rw [hL, hja, if_neg (hja ▸ hjb), if_pos rfl], ?_⟩
          rw [hc2]
          by_cases happ : uej.app = ue.app
          · rw [if_pos happ]
            refine Finset.mem_erase.mpr ⟨?_, hmemj⟩
            rw [hidI]
            exact hji
          · rw [if_neg happ]
            exact hmemj
        · exact ⟨apj, by rw [hL, if_neg hjb, if_neg hja]; exact hapj, hmemj⟩
  · intro k apk c j hk hmem
    rw [hL] at hk
    by_cases hkb : k = b
    · rw [if_pos hkb] at hk
      injection hk with hk
      subst hk
      subst hkb
      rw [hn2] at hmem
      by_cases hc : c = ue.app
      · rw [if_pos hc] at hmem
        rcases Finset.mem_insert.mp hmem with rfl | hmem'
        · refine ⟨ue₃, ?_, h3ap, hc ▸ h3app⟩
          rw [hidI, dlookup_dinsert_self]
        · have hji : j ≠ i := fun hji => hNotNap c (hji ▸ hmem')
          obtain ⟨uej, hj, hj2, hj3⟩ := hInv.ap_ue k nap c j hnap hmem'
          exact ⟨uej, by rw [dlookup_dinsert_ne _ _ _ _ hji]; exact hj, hj2, hj3⟩
      · rw [if_neg hc] at hmem
        have hji : j ≠ i := fun hji => hNotNap c (hji ▸ hmem)
        obtain ⟨uej, hj, hj2, hj3⟩ := hInv.ap_ue k nap c j hnap hmem
        exact ⟨uej, by rw [dlookup_dinsert_ne _ _ _ _ hji]; exact hj, hj2, hj3⟩
    · rw [if_neg hkb] at hk
      by_cases hka : k = ue.ap
      · rw [if_pos hka] at hk
        injection hk with hk
        subst hk
        subst hka
        rw [hc2] at hmem
        by_cases hc : c = ue.app
        · rw [if_pos hc] at hmem
          obtain ⟨hne, hmem'⟩ := Finset.mem_erase.mp hmem
          have hji : j ≠ i := by rw [← hidI]; exact hne
          obtain ⟨uej, hj, hj2, hj3⟩ := hInv.ap_ue ue.ap cur c j hcur hmem'
          exact ⟨uej, by rw [dlookup_dinsert_ne _ _ _ _ hji]; exact hj, hj2, hj3⟩
        · rw [if_neg hc] at hmem
          have hji : j ≠ i := fun hji =>
            hc (hUniq ue.ap cur c hcur (hji ▸ hmem)).2
          obtain ⟨uej, hj, hj2, hj3⟩ := hInv.ap_ue ue.ap cur c j hcur hmem
          exact ⟨uej, by rw [dlookup_dinsert_ne _ _ _ _ hji]; exact hj, hj2, hj3⟩
      · rw [if_neg hka] at hk
        have hji : j ≠ i := fun hji =>
          hka ((hUniq k apk c hk (hji ▸ hmem)).1)
        obtain ⟨uej, hj, hj2, hj3⟩ := hInv.ap_ue k apk c j hk hmem
        exact ⟨uej, by rw [dlookup_dinsert_ne _ _ _ _ hji]; exact hj, hj2, hj3⟩
  · intro k apk c hk
    rw [hL] at hk
    by_cases hkb : k = b
    · rw [if_pos hkb] at hk
      injection hk with hk
      subst hk
      subst hkb
      rw [hn3, hn2]
      by_cases hc : c = ue.app
      · rw [if_pos hc, if_pos hc, hidI, Finset.filter_insert]
        have hmemne : ∀ j ∈ nap.n_ues c, j ≠ i := fun j hj hji =>
          hNotNap c (hji ▸ hj)
        rcases h3sla with h0 | h1
        · rw [if_neg (by rw [slaOne_dinsert, if_pos rfl, h0]; simp)]
          rw [hcong _ hmemne, h0, add_zero]
          exact hInv.counter k nap c hnap
        · rw [if_pos (by rw [slaOne_dinsert, if_pos rfl, h1]; simp)]
          rw [Finset.card_insert_of_not_mem
            (fun hmem => hNotNap c (Finset.mem_filter.mp hmem).1)]
          rw [hcong _ hmemne, h1]
          push_cast
          rw [hInv.counter k nap c hnap]
      · rw [if_neg hc, if_neg hc]
        have hmemne : ∀ j ∈ nap.n_ues c, j ≠ i := fun j hj hji =>
          hNotNap c (hji ▸ hj)
        rw [hcong _ hmemne]
        exact hInv.counter k nap c hnap
    · rw [if_neg hkb] at hk
      by_cases hka : k = ue.ap
      · rw [if_pos hka] at hk
        injection hk with hk
        subst hk
        subst hka
        rw [hc3, hc2]
        by_cases hc : c = ue.app
        · rw [if_pos hc, if_pos hc, hidI, Finset.filter_erase]
          have herase : (Finset.filter
                (fun j => slaOne (dinsert ued i ue₃) j = true)
                (cur.n_ues c)).erase i =
              (Finset.filter (fun j => slaOne ued j = true)
                (cur.n_ues c)).erase i := by
            ext j
            simp only [Finset.mem_erase, Finset.mem_filter]
            constructor
            · rintro ⟨hji, hjmem, hjp⟩
              refine ⟨hji, hjmem, ?_⟩
              rwa [slaOne_dinsert, if_neg hji] at hjp
            · rintro ⟨hji, hjmem, hjp⟩
              refine ⟨hji, hjmem, ?_⟩
              rwa [slaOne_dinsert, if_neg hji]
          rw [herase]
          rcases hInv.sla01 i ue hue with h0 | h1
          · rw [Finset.erase_eq_of_not_mem
              (fun hmem => by
                have hx := (Finset.mem_filter.mp hmem).2
                simp only [slaOne, hue] at hx
                rw [h0] at hx
                simp at hx)]
            rw [h0, sub_zero]
            exact hInv.counter ue.ap cur c hcur
          · have hifilter : i ∈ (cur.n_ues c).filter
                (fun j => slaOne ued j = true) := by
              refine Finset.mem_filter.mpr ⟨hc ▸ hmemCur, ?_⟩
              simp only [slaOne, hue]
              simp [h1]
            rw [Finset.cast_card_erase_of_mem hifilter, h1]
            rw [← hInv.counter ue.ap cur c hcur]
        · rw [if_neg hc, if_neg hc]
          have hmemne : ∀ j ∈ cur.n_ues c, j ≠ i := fun j hj hji =>
            hc (hUniq ue.ap cur c hcur (hji ▸ hj)).2
          rw [hcong _ hmemne]
          exact hInv.counter ue.ap cur c hcur
      · rw [if_neg hka] at hk
        have hmemne : ∀ j ∈ apk.n_ues c, j ≠ i := fun j hj hji =>
          hka (hUniq k apk c hk (hji ▸ hj)).1
        rw [hcong _ hmemne]
        exact hInv.counter k apk c hk

/-- One `_instantiate_ues` iteration preserves the dictionary invariant:
writing back `update_ue_stats` applied to the fresh UE record and the AP
record with the UE added to `n_ues[app]` is an instance of `InvD_attach`. -/
theorem instantiate_step_InvD (O : FloatOracle) (sc : ℚ) (stats : ℤ × ℤ)
    (apd : List (ℕ × AP)) (acc : List (ℕ × UE)) (i cap_id : ℕ) (cap : AP)
    (loc : Loc) (app : App) (rb : ℚ) (nbr_ids : List ℕ)
    (hInv : InvD apd acc) (hfr : dlookup acc i = none)
    (hcap : dlookup apd cap_id = some cap) :
    InvD
      (dinsert apd cap_id
        (update_ue_stats O sc stats
          ⟨i, cap_id, loc, app, rb, nbr_ids, 0, 0, 1, some (-100)⟩
          ⟨cap.ap_id, cap.location,
           fun c => if c = app then insert i (cap.n_ues c) else cap.n_ues c,
           cap.ues_meeting_sla, cap.max_connections, cap.uplink_bandwidth,
           cap.channel_bandwidth⟩).2.1)
      (dinsert acc i
        (update_ue_stats O sc stats
          ⟨i, cap_id, loc, app, rb, nbr_ids, 0, 0, 1, some (-100)⟩
          ⟨cap.ap_id, cap.location,
           fun c => if c = app then insert i (cap.n_ues c) else cap.n_ues c,
           cap.ues_meeting_sla, cap.max_connections, cap.uplink_bandwidth,
           cap.channel_bandwidth⟩).1) :=
  InvD_attach apd acc i cap_id cap _ _ hInv hfr hcap rfl rfl
    (get_ue_sla_01 _ _) rfl (fun _ => rfl) (fun _ => rfl)

/-- The `_instantiate_ues` loop preserves the dictionary invariant: if the
incoming state's `ap_dict` and the accumulated `ue_dict` satisfy `InvD` and
the remaining ids are fresh and distinct, a successful run ends in a state
whose `ap_dict` satisfies `InvD` with the returned `ue_dict`. -/
theorem instantiate_loop_InvD (O : FloatOracle) (D : RandomDraws) :
    ∀ (ids : List ℕ) (st : NetState) (acc : List (ℕ × UE))
      {apd : List (ℕ × AP)} (ued' : List (ℕ × UE)) (st' : NetState),
      st.ap_dict = some apd → InvD apd acc → ids.Nodup →
      (∀ j ∈ ids, dlookup acc j = none) →
      instantiate_loop O D ids st acc = (.ok ued', st') →
      ∃ apd', st'.ap_dict = some apd' ∧ InvD apd' ued' := by
  intro ids
  induction ids with
  | nil =>
    intro st acc apd ued' st' hap hInv hnd hfr h
    simp only [instantiate_loop, Prod.mk.injEq, Except.ok.injEq] at h
    exact ⟨apd, h.2 ▸ hap, h.1 ▸ hInv⟩
  | cons i rest ih =>
    intro st acc apd ued' st' hap hInv hnd hfr h
    simp only [instantiate_loop] at h
    split at h
    · simp at h
    · rename_i cap_loc nbrs heq1
      split at h
      · simp at h
      · rename_i cap_id heq2
        split at h
        · simp at h
        · rename_i apd₀ heq3
          split at h
          · simp at h
          · rename_i cap heq4
            split at h
            · simp at h
            · rename_i nbr_ids heq5
              have heq3' : st.ap_dict = some apd₀ := heq3
              rw [hap] at heq3'
              injection heq3' with heq3'
              subst heq3'
              have hfri : dlookup acc i = none :=
                hfr i (List.mem_cons_self i rest)
              rw [← dinsert_eq_append acc i _ hfri, dinsert_dinsert] at h
              exact ih _ _ _ _ rfl
                (instantiate_step_InvD O st.scale st.ue_sla_stats apd acc i
                  cap_id cap (D.locOf i) (D.appOf i) (APPS_DICT (D.appOf i))
                  nbr_ids hInv hfri heq4)
                (List.nodup_cons.mp hnd).2
                (fun j hj => by
                  have hji : j ≠ i := fun hji =>
                    (List.nodup_cons.mp hnd).1 (hji ▸ hj)
                  rw [dlookup_dinsert_ne _ _ _ _ hji]
                  exact hfr j (List.mem_cons_of_mem _ hj)) h

/-- `__init__` produces a state satisfying the state-level invariant. -/
theorem initNetwork_InvS (O : FloatOracle) (D : RandomDraws)
    (nu na : ℕ) (sc : ℚ) (r : ℕ) (st : NetState)
    (h : initNetwork O D nu na sc r = .ok st) : InvS st := by
  simp only [initNetwork, instantiate_ues] at h
  split at h
  · simp at h
  · rename_i ued₁ st₁ heq
    injection h with h
    subst h
    obtain ⟨apd', hap', hInv'⟩ :=
      instantiate_loop_InvD O D _ _ _ ued₁ st₁ rfl
        (InvD_of_APInit _ (place_aps_init _ _))
        (by simp [List.nodup_range']) (fun j hj => rfl) heq
    exact ⟨apd', ued₁, hap', rfl, hInv'⟩

/-- A `perform_handoff` call that returns `Except.ok` (either the no-op
branch or a completed handoff) preserves the state-level invariant. -/
theorem perform_handoff_InvS (O : FloatOracle) (st : NetState)
    (ue_id ap_id : ℕ) (res : HandoffResult) (st' : NetState)
    (h : perform_handoff O st ue_id ap_id = (.ok res, st'))
    (hS : InvS st) : InvS st' := by
  obtain ⟨apd, ued, hap, hued, hInv⟩ := hS
  simp only [perform_handoff] at h
  split at h
  · simp at h
  · rename_i ued₀ heq1
    have heq1' : st.ue_dict = some ued₀ := heq1
    rw [hued] at heq1'
    injection heq1' with heq1'
    subst heq1'
    split at h
    · simp at h
    · rename_i ue heq2
      split at h
      · simp at h
      · rename_i apd₀ heq3
        have heq3' : st.ap_dict = some apd₀ := heq3
        rw [hap] at heq3'
        injection heq3' with heq3'
        subst heq3'
        split at h
        · simp at h
        · rename_i cur heq4
          split at h
          · rw [Prod.mk.injEq] at h
            exact h.2 ▸ ⟨apd, ued, hap, hued, hInv⟩
          · rename_i hne
            simp only [handoff_to_ap] at h
            split at h
            · rename_i hmem
              split at h
              · simp at h
              · rename_i nap heqN
                have hnap : dlookup apd ap_id = some nap := by
                  rw [dlookup_dinsert_ne _ _ _ _
                    (fun hh => hne hh.symm)] at heqN
                  exact heqN
                split at h
                · simp at h
                · rename_i nbrs heqF
                  rw [Prod.mk.injEq] at h
                  obtain ⟨hres, hst⟩ := h
                  subst hst
                  refine ⟨_, _, rfl, rfl, ?_⟩
                  rw [dinsert_dinsert, dinsert_dinsert]
                  exact InvD_handoff apd ued ue_id ap_id ue cur nap _ _ _
                    hInv heq2 heq4 hne hnap rfl rfl rfl (get_ue_sla_01 _ _)
                    rfl (fun c => rfl) (fun c => rfl)
                    rfl (fun c => rfl) (fun c => rfl)
            · simp at h

/-- The states the simulator can be in: freshly constructed, or the
`perform_handoff` successor of a reachable state when the call returns
normally. -/
inductive Reachable (O : FloatOracle) : NetState → Prop
  | init (D : RandomDraws) (nu na : ℕ) (sc : ℚ) (r : ℕ) (st : NetState) :
      initNetwork O D nu na sc r = .ok st → Reachable O st
  | step (st : NetState) (ue_id ap_id : ℕ) (res : HandoffResult)
      (st' : NetState) : Reachable O st →
      perform_handoff O st ue_id ap_id = (.ok res, st') → Reachable O st'

/-- Every reachable state satisfies the dictionary invariant. -/
theorem Reachable_InvS (O : FloatOracle) (st : NetState)
    (h : Reachable O st) : InvS st := by
  induction h with
  | init D nu na sc r st hinit => exact initNetwork_InvS O D nu na sc r st hinit
  | step st ue_id ap_id res st' hr hph ih =>
    exact perform_handoff_InvS O st ue_id ap_id res st' hph ih

/-- `slaOne` reads the stored `sla` field: it is `true` exactly when the id
resolves to a UE record whose `sla` is `1`. -/
theorem slaOne_iff (ued : List (ℕ × UE)) (j : ℕ) :
    slaOne ued j = true ↔ ∃ ue, dlookup ued j = some ue ∧ ue.sla = 1 := by
  unfold slaOne
  cases h : dlookup ued j with
  | none => simp
  | some ue => simp

/-- C5: in every state reachable by `__init__` followed by any sequence of
`perform_handoff` calls that return normally, every AP's
`ues_meeting_sla[class]` equals the number of ids in that AP's
`n_ues[class]` whose stored UE record has `sla = 1` — the counter is a
faithful running count of attached UEs currently meeting SLA. -/
theorem c5_counter_is_sla_count (O : FloatOracle) (st : NetState)
    (h : Reachable O st) :
    ∃ apd ued, st.ap_dict = some apd ∧ st.ue_dict = some ued ∧
      (∀ j, slaOne ued j = true ↔ ∃ ue, dlookup ued j = some ue ∧ ue.sla = 1) ∧
      ∀ a ap c, dlookup apd a = some ap →
        ap.ues_meeting_sla c =
          (((ap.n_ues c).filter (fun i => slaOne ued i = true)).card : ℤ) := by
  obtain ⟨apd, ued, hap, hued, hInv⟩ := Reachable_InvS O st h
  exact ⟨apd, ued, hap, hued, slaOne_iff ued, hInv.counter⟩

/-- C5 witness: the counter invariant at the concrete freshly constructed
one-AP, one-UE state. -/
theorem c5_witness :
    ∃ apd ued, stA.ap_dict = some apd ∧ stA.ue_dict = some ued ∧
      (∀ j, slaOne ued j = true ↔ ∃ ue, dlookup ued j = some ue ∧ ue.sla = 1) ∧
      ∀ a ap c, dlookup apd a = some ap →
        ap.ues_meeting_sla c =
          (((ap.n_ues c).filter (fun i => slaOne ued i = true)).card : ℤ) :=
  c5_counter_is_sla_count oracle0 stA
    (Reachable.init draws0 1 1 100 1 stA eval_stA)

/-- C6: in every state reachable by `__init__` followed by any sequence of
`perform_handoff` calls that return normally, a UE id appears in at most
one AP's `n_ues`, under at most one application class, and every attached
id resolves back to that AP: the stored UE record's `ap` field equals both
the dictionary key and the `ap_id` of the containing AP, and its `app`
field is the containing class. -/
theorem c6_unique_attachment (O : FloatOracle) (st : NetState)
    (h : Reachable O st) :
    ∃ apd ued, st.ap_dict = some apd ∧ st.ue_dict = some ued ∧
      (∀ a a' ap ap' c c' i, dlookup apd a = some ap →
        dlookup apd a' = some ap' → i ∈ ap.n_ues c → i ∈ ap'.n_ues c' →
        a = a' ∧ c = c') ∧
      (∀ a ap c i, dlookup apd a = some ap → i ∈ ap.n_ues c →
        ∃ ue, dlookup ued i = some ue ∧ ue.ap = a ∧ ue.ap = ap.ap_id ∧
          ue.app = c) := by
  obtain ⟨apd, ued, hap, hued, hInv⟩ := Reachable_InvS O st h
  refine ⟨apd, ued, hap, hued, ?_, ?_⟩
  · intro a a' ap ap' c c' i ha ha' hm hm'
    obtain ⟨ue, hue, hua, huc⟩ := hInv.ap_ue a ap c i ha hm
    obtain ⟨ue', hue', hua', huc'⟩ := hInv.ap_ue a' ap' c' i ha' hm'
    rw [hue] at hue'
    injection hue' with hue'
    subst hue'
    exact ⟨hua.symm.trans hua', huc.symm.trans huc'⟩
  · intro a ap c i ha hm
    obtain ⟨ue, hue, hua, huc⟩ := hInv.ap_ue a ap c i ha hm
    exact ⟨ue, hue, hua, hua.trans (hInv.ap_key a ap ha).symm, huc⟩

/-- C6 witness: the unique-attachment invariant at the concrete freshly
constructed one-AP, one-UE state. -/
theorem c6_witness :
    ∃ apd ued, stA.ap_dict = some apd ∧ stA.ue_dict = some ued ∧
      (∀ a a' ap ap' c c' i, dlookup apd a = some ap →
        dlookup apd a' = some ap' → i ∈ ap.n_ues c → i ∈ ap'.n_ues c' →
        a = a' ∧ c = c') ∧
      (∀ a ap c i, dlookup apd a = some ap → i ∈ ap.n_ues c →
        ∃ ue, dlookup ued i = some ue ∧ ue.ap = a ∧ ue.ap = ap.ap_id ∧
          ue.app = c) :=
  c6_unique_attachment oracle0 stA
    (Reachable.init draws0 1 1 100 1 stA eval_stA)

end Rainman2
